import Mathlib

/-!
# Verification of the SEO rendered-scan service against its specification

Shallow embedding of the repository's three modules:

* `app/browser_fetch.py` — wait-mode normalization, the browser pool
  (start/stop/page lifecycle) and the rendered fetch;
* `app/seo.py` — keyword density, JSON-LD validation, the WAF cooldown
  table and the `analyze` orchestrator;
* `app/main.py` — URL normalization (`_norm_url`, built on Python's
  `urllib.parse.urlsplit`/`urlunsplit`).

Python strings are modelled as Lean `String`/`List Char` (ASCII scope for
case mapping: Python's `str.lower`/`str.strip` are Unicode-aware, the code
only feeds them ASCII configuration tokens, URLs and HTML-derived text).
Python floats are modelled as exact rationals with explicit
round-half-to-even, matching `round(x, 2)` on the exact values the code
computes.  Fallible Python code (raising) is modelled with `Except`.
External-library work (Playwright, BeautifulSoup, network I/O) is supplied
through explicit environment parameters; everything the repository's own
lines compute is translated directly.
-/

namespace SEOTool

/-! ## Python-string primitives (ASCII scope) -/

/-- Python `str.lower` on one ASCII character (`'A'..'Z'` map down, the
rest are fixed). -/
def pyLowerChar (c : Char) : Char :=
  if 'A' ≤ c ∧ c ≤ 'Z' then Char.ofNat (c.toNat + 32) else c

/-- Python `str.lower` over a character list. -/
def pyLower (s : List Char) : List Char := s.map pyLowerChar

/-- Python `str.lower` over a `String`. -/
def pyLowerS (s : String) : String := String.mk (pyLower s.data)

/-- The characters Python's default `str.strip` removes (ASCII whitespace). -/
def pyIsSpace (c : Char) : Bool :=
  c = ' ' ∨ c = '\t' ∨ c = '\n' ∨ c = '\r' ∨ c = '\x0b' ∨ c = '\x0c'

/-- Python `str.strip()` (default: strip whitespace from both ends). -/
def pyStrip (s : List Char) : List Char :=
  ((s.dropWhile pyIsSpace).reverse.dropWhile pyIsSpace).reverse

/-- Python `str.strip()` over a `String`. -/
def pyStripS (s : String) : String := String.mk (pyStrip s.data)

/-! ## `_normalize_wait_until` (`app/browser_fetch.py`) -/

/-- `_ALLOWED_WAITS` from `app/browser_fetch.py`: the canonical wait-mode
set `{"load", "domcontentloaded", "networkidle", "commit"}`. -/
def ALLOWED_WAITS : List String :=
  ["load", "domcontentloaded", "networkidle", "commit"]

/-- `_WAIT_ALIASES` from `app/browser_fetch.py`: the fixed alias table
mapping free-form wait tokens to canonical modes. -/
def WAIT_ALIASES : List (String × String) :=
  [ ("dom", "domcontentloaded")
  , ("dom_loaded", "domcontentloaded")
  , ("domcontent", "domcontentloaded")
  , ("dom-content-loaded", "domcontentloaded")
  , ("domcontentloaded", "domcontentloaded")
  , ("documentloaded", "domcontentloaded")
  , ("document_loaded", "domcontentloaded")
  , ("domcontentloaded()", "domcontentloaded")
  , ("domcontentLoaded", "domcontentloaded")
  , ("domContentLoaded", "domcontentloaded")
  , ("network_idle", "networkidle")
  , ("network-idle", "networkidle")
  , ("networkidle()", "networkidle")
  , ("networkIdle", "networkidle")
  , ("idle", "networkidle") ]

/-- Assoc-list lookup, Python `dict.get(k, d)`. -/
def alistGetD {α : Type} (l : List (String × α)) (k : String) (d : α) : α :=
  match l.find? (fun kv => kv.fst = k) with
  | some kv => kv.snd
  | none => d

/-- `_normalize_wait_until(val, default)` from `app/browser_fetch.py`:
`v = (val or "").strip().lower(); v = _WAIT_ALIASES.get(v, v);
return v if v in _ALLOWED_WAITS else default`. -/
def normalize_wait_until (val : Option String) (default : String) : String :=
  let v := pyLowerS (pyStripS (val.getD ""))
  let v := alistGetD WAIT_ALIASES v v
  if ALLOWED_WAITS.contains v then v else default

/-! ## Python values and dictionaries

`JVal` models the Python values the scan report carries (JSON-like data).
Report dictionaries are association lists preserving insertion order,
matching Python `dict` semantics (`d[k] = v` updates in place, inserts at
the end when the key is new). -/

inductive JVal where
  | null
  | bool (b : Bool)
  | int (n : ℤ)
  | str (s : String)
  | list (xs : List JVal)
  | dict (kvs : List (String × JVal))

/-- Python `dict.__getitem__`-style lookup returning `none` on absence
(`dict.get(k)`). -/
def dGet : List (String × JVal) → String → Option JVal
  | [], _ => none
  | (k, v) :: rest, key => if k = key then some v else dGet rest key

/-- Python `k in d`. -/
def dMem (d : List (String × JVal)) (k : String) : Bool := (dGet d k).isSome

/-- Python `d.get(k, default)`. -/
def dGetD (d : List (String × JVal)) (k : String) (v₀ : JVal) : JVal :=
  (dGet d k).getD v₀

/-- Python `d[k] = v`: replace in place, append when new. -/
def dSet : List (String × JVal) → String → JVal → List (String × JVal)
  | [], key, v => [(key, v)]
  | (k, w) :: rest, key, v =>
      if k = key then (k, v) :: rest else (k, w) :: dSet rest key v

/-- Python truthiness (`bool(x)`) for the modelled value kinds. -/
def jTruthy : JVal → Bool
  | .null => false
  | .bool b => b
  | .int n => decide (n ≠ 0)
  | .str s => decide (s ≠ "")
  | .list xs => ¬ xs.isEmpty
  | .dict kvs => ¬ kvs.isEmpty

/-- Python `str(x)` for the modelled value kinds.  Only the `.str` case is
ever consulted against `_SD_REQUIRED` (whose keys are plain type names);
container reprs are abbreviated placeholders that match no table key. -/
def pyStr : JVal → String
  | .str s => s
  | .bool true => "True"
  | .bool false => "False"
  | .int n => toString n
  | .null => "None"
  | .list _ => "[...]"
  | .dict _ => "{...}"

/-! ## Structured-data validation (`app/seo.py`) -/

/-- `_SD_REQUIRED` from `app/seo.py`: the fixed per-type required-field
table. -/
def SD_REQUIRED : List (String × List String) :=
  [ ("Article", ["headline"])
  , ("BlogPosting", ["headline"])
  , ("NewsArticle", ["headline"])
  , ("Product", ["name"])
  , ("Event", ["name", "startDate"])
  , ("Organization", ["name"])
  , ("LocalBusiness", ["name", "address"])
  , ("FAQPage", ["mainEntity"])
  , ("HowTo", ["name", "step"]) ]

/-- `_sd_req(t)`: `_SD_REQUIRED.get(t, [])`. -/
def sd_req (t : String) : List String := alistGetD SD_REQUIRED t []

/-- `_jsonld_items`: keep the dict-shaped entries of the input list. -/
def jsonld_items : List JVal → List (List (String × JVal))
  | [] => []
  | .dict kvs :: rest => kvs :: jsonld_items rest
  | _ :: rest => jsonld_items rest

/-- The `tval` computation in `validate_jsonld`:
`typ[0] if isinstance(typ, list) and typ else (typ or "Unknown")`
where `typ = it.get("@type")`. -/
def sdTypeVal (it : List (String × JVal)) : JVal :=
  match dGet it "@type" with
  | some (.list (x :: _)) => x
  | some (.list []) => .str "Unknown"
  | some v => if jTruthy v then v else .str "Unknown"
  | none => .str "Unknown"

/-- The per-field test of `validate_jsonld`'s `missing` comprehension:
`f not in it or (isinstance(it.get(f), str) and not it.get(f).strip())`. -/
def sdFieldMissing (it : List (String × JVal)) (f : String) : Bool :=
  match dGet it f with
  | none => true
  | some (.str s) => (pyStrip s.data).isEmpty
  | some _ => false

structure SDItemReport where
  type : JVal
  missing : List String
  ok : Bool

structure SDSummary where
  total_items : ℕ
  ok_count : ℕ
  has_errors : Bool

structure SDValidation where
  summary : SDSummary
  items : List SDItemReport

/-- One iteration of `validate_jsonld`'s loop:
`{"type": tval, "missing": missing, "ok": len(missing) == 0 if req else True}`. -/
def validateItem (it : List (String × JVal)) : SDItemReport :=
  let tval := sdTypeVal it
  let req := sd_req (pyStr tval)
  let missing := req.filter (fun f => sdFieldMissing it f)
  ⟨tval, missing, if req.isEmpty then true else missing.isEmpty⟩

/-- `validate_jsonld(jsonld_any)` from `app/seo.py`. -/
def validate_jsonld (jsonld_any : List JVal) : SDValidation :=
  let items := jsonld_items jsonld_any
  let report := items.map validateItem
  { summary :=
      { total_items := items.length
      , ok_count := (report.filter (fun r => r.ok)).length
      , has_errors := report.any (fun r => ¬ r.ok) }
  , items := report }

/-! ## Keyword density (`app/seo.py`) -/

/-- The `STOPWORDS` set inside `keyword_density`. -/
def STOPWORDS : List String :=
  [ "the", "and", "for", "are", "but", "not", "you", "your", "with", "have"
  , "this", "that", "was", "from", "they", "his", "her", "she", "him", "has"
  , "had", "were", "will", "what", "when", "where", "who", "why", "how"
  , "can", "all", "any", "each", "few", "more", "most", "other", "some"
  , "such", "no", "nor", "too", "very", "of", "to", "in", "on", "by", "is"
  , "as", "at", "it", "or", "be", "we", "an", "a", "our", "us", "if", "out"
  , "up", "so", "do", "did", "does", "their", "its", "than", "then" ]

/-- One character class of the regex `[A-Za-z]`. -/
def reAlpha (c : Char) : Bool :=
  ('A' ≤ c ∧ c ≤ 'Z') ∨ ('a' ≤ c ∧ c ≤ 'z')

/-- Maximal runs of `[A-Za-z]` characters (the accumulator carries the
current run, reversed). -/
def alphaRunsAux : List Char → List Char → List (List Char)
  | [], acc => if acc.isEmpty then [] else [acc.reverse]
  | c :: cs, acc =>
      if reAlpha c then alphaRunsAux cs (c :: acc)
      else if acc.isEmpty then alphaRunsAux cs []
      else acc.reverse :: alphaRunsAux cs []

/-- `re.findall(r"[A-Za-z]{3,}", text)`: every maximal alphabetic run of
length at least 3, in order. -/
def findallAlpha3 (s : List Char) : List String :=
  ((alphaRunsAux s []).filter (fun r => 3 ≤ r.length)).map String.mk

/-- `freq[w] = freq.get(w, 0) + 1` on an insertion-ordered dict. -/
def bumpWord : List (String × ℕ) → String → List (String × ℕ)
  | [], w => [(w, 1)]
  | (k, c) :: rest, w =>
      if k = w then (k, c + 1) :: rest else (k, c) :: bumpWord rest w

/-- The counting loop of `keyword_density` (stopwords dropped). -/
def freqOf (ws : List String) : List (String × ℕ) :=
  ws.foldl (fun m w => if STOPWORDS.contains w then m else bumpWord m w) []

/-- Stable insertion for descending-by-count order: an existing entry with
a strictly greater count stays in front; ties keep the earlier entry
first, matching Python's stable `sorted(..., reverse=True)`. -/
def insertByCountDesc (x : String × ℕ) : List (String × ℕ) → List (String × ℕ)
  | [] => [x]
  | y :: ys => if x.snd < y.snd then y :: insertByCountDesc x ys else x :: y :: ys

/-- `sorted(freq.items(), key=lambda kv: kv[1], reverse=True)` (stable). -/
def sortByCountDesc (l : List (String × ℕ)) : List (String × ℕ) :=
  l.foldr insertByCountDesc []

/-- Round half to even (Python `round` on the exact value).
`Rat.floor` is the executable floor on `ℚ`. -/
def roundHalfEven (q : ℚ) : ℤ :=
  if q - Rat.floor q < 1/2 then Rat.floor q
  else if 1/2 < q - Rat.floor q then Rat.floor q + 1
  else if Rat.floor q % 2 = 0 then Rat.floor q else Rat.floor q + 1

/-- Python `round(x, 2)` modelled on exact rationals. -/
def pyRound2 (q : ℚ) : ℚ := (roundHalfEven (q * 100) : ℚ) / 100

structure KDEntry where
  word : String
  count : ℕ
  percent : ℚ
deriving DecidableEq

/-- The token-frequency table `keyword_density` builds for `text`
(`re.findall` over the lowercased text, stopwords dropped). -/
def kdFreq (text : String) : List (String × ℕ) :=
  freqOf (findallAlpha3 (pyLower text.data))

/-- The denominator of `keyword_density`'s percentages:
`total = sum(freq.values()) or 1`. -/
def kdTotal (text : String) : ℚ :=
  if ((kdFreq text).map Prod.snd).sum = 0 then 1
  else (((kdFreq text).map Prod.snd).sum : ℚ)

/-- `keyword_density(text, top_n)` from `app/seo.py` (the source defaults
`top_n` to 10; `parse_html` calls it with `top_n=10`): rank the frequency
table descending (stably), keep the top `top_n`, and report
`round(100.0 * c / total, 2)` per entry. -/
def keyword_density (text : String) (top_n : ℕ) : List KDEntry :=
  ((sortByCountDesc (kdFreq text)).take top_n).map
    (fun wc => ⟨wc.fst, wc.snd, pyRound2 (100 * (wc.snd : ℚ) / kdTotal text)⟩)

/-! ## Browser pool state (`app/browser_fetch.py`) -/

/-- The mutable fields of `_BrowserPool` relevant to start/stop: the
browser handle, the playwright handle and the `_started` flag (handles
are abstract ids). -/
structure PoolState where
  browser : Option ℕ
  playwright : Option ℕ
  started : Bool
deriving DecidableEq

/-- The state `stop` assigns when it runs to completion:
`self._browser = None; self._playwright = None; self._started = False`. -/
def poolReset : PoolState := ⟨none, none, false⟩

/-- `_BrowserPool.stop`.  `browser.close()` / `playwright.stop()` may
raise (`bFail`/`pFail`); the source has no `try`/`except`, so a raise
propagates (first component `some msg`) before any of the three reset
assignments run, leaving the state unchanged. -/
def pool_stop (bFail pFail : Bool) (s : PoolState) : Option String × PoolState :=
  if s.browser.isSome ∧ bFail then (some "browser.close raised", s)
  else if s.playwright.isSome ∧ pFail then (some "playwright.stop raised", s)
  else (none, poolReset)

/-- `_BrowserPool.start` run without interleaving (single caller):
returns the new state and whether a browser launch occurred. -/
def pool_start (s : PoolState) : PoolState × Bool :=
  if s.started then (s, false) else (⟨some 0, some 0, true⟩, true)

/-! ### Interleaved `start` (cooperative scheduling)

`start` is `async` and suspends at `await async_playwright().start()` and
`await pw.chromium.launch(...)`, i.e. between reading `self._started` and
assigning `self._started = True`.  Each caller is a three-step program:
check the flag, perform the launch (the awaited region), commit the flag.
A schedule names which caller steps next. -/

inductive StartPC where
  | pcCheck | pcLaunch | pcCommit | pcDone
deriving DecidableEq

structure RaceState where
  started : Bool
  launches : ℕ
  pcs : List StartPC
deriving DecidableEq

/-- Advance caller `i` by one step of `_BrowserPool.start`. -/
def stepCaller (st : RaceState) (i : ℕ) : RaceState :=
  match st.pcs.get? i with
  | some .pcCheck =>
      if st.started then { st with pcs := st.pcs.set i .pcDone }
      else { st with pcs := st.pcs.set i .pcLaunch }
  | some .pcLaunch =>
      { st with launches := st.launches + 1, pcs := st.pcs.set i .pcCommit }
  | some .pcCommit =>
      { st with started := true, pcs := st.pcs.set i .pcDone }
  | _ => st

/-- Run a schedule (a list of caller indices). -/
def runSchedule (init : RaceState) (sched : List ℕ) : RaceState :=
  sched.foldl stepCaller init

/-- `n` concurrent callers of `start()` against a fresh pool. -/
def startRace (n : ℕ) : RaceState := ⟨false, 0, List.replicate n .pcCheck⟩

/-! ### Scoped page acquisition (`_BrowserPool.page`, `fetch_rendered`) -/

/-- Events of a render: context creation, context close, other awaited
actions. -/
inductive PoolEv where
  | openCtx | closeCtx | act (name : String)
deriving DecidableEq

/-- `_BrowserPool.page`: create a context and a page, then
`try: yield (page, logs) finally: await context.close()`.  The caller's
body is given as its own event trace plus outcome; the `finally` appends
exactly one `closeCtx` whether the body returns or raises.  Creation
failures (`new_context`/`new_page` raising) happen before the `try`. -/
def pool_page_run {α : Type} (newContextFails newPageFails : Bool)
    (body : List PoolEv × Except String α) : List PoolEv × Except String α :=
  if newContextFails then ([], .error "new_context raised")
  else if newPageFails then ([.openCtx], .error "new_page raised")
  else (.openCtx :: body.fst ++ [.closeCtx], body.snd)

/-- The body `fetch_rendered` runs inside `_POOL.page(...)`: `page.goto`
under the requested wait mode; on any exception one last-resort retry with
`"networkidle"`; a failing retry propagates.  The scroll nudges, settle
sleep, selector wait and content capture open or close no context and are
folded into the successful outcome. -/
def fetch_rendered_body (goto1 goto2 : Except String ℕ) :
    List PoolEv × Except String ℕ :=
  match goto1 with
  | .ok r => ([.act "goto"], .ok r)
  | .error _ =>
      match goto2 with
      | .ok r => ([.act "goto", .act "goto-fallback"], .ok r)
      | .error e => ([.act "goto", .act "goto-fallback"], .error e)

/-! ## `urllib.parse.urlsplit` / `urlunsplit` (CPython 3.11 semantics)

`_norm_url` (`app/main.py`) and `_host` (`app/seo.py`) are built on these
standard-library functions, so they are embedded too (ASCII scope; the
`_checknetloc` NFKC guard, which only concerns non-ASCII netlocs, is out
of scope). -/

/-- CPython `scheme_chars`: ASCII letters, digits and `+`, `-`, `.`. -/
def schemeChar (c : Char) : Bool :=
  reAlpha c ∨ ('0' ≤ c ∧ c ≤ '9') ∨ c = '+' ∨ c = '-' ∨ c = '.'

/-- `_UNSAFE_URL_BYTES_TO_REMOVE`: tab, CR and LF. -/
def unsafeChar (c : Char) : Bool := c = '\t' ∨ c = '\r' ∨ c = '\n'

/-- The unsafe characters are removed anywhere in the URL before
parsing. -/
def removeUnsafe (s : List Char) : List Char :=
  s.filter (fun c => ¬ unsafeChar c)

/-- Split at the first occurrence of `sep`: `some (before, after)` with
the separator removed, `none` when absent (`str.split(sep, 1)`). -/
def splitOnFirst (sep : Char) : List Char → Option (List Char × List Char)
  | [] => none
  | c :: cs =>
      if c = sep then some ([], cs)
      else
        match splitOnFirst sep cs with
        | some (a, b) => some (c :: a, b)
        | none => none

/-- The delimiters ending the netloc in `_splitnetloc`. -/
def netlocDelim (c : Char) : Bool := c = '/' ∨ c = '?' ∨ c = '#'

structure SplitResult where
  scheme : List Char
  netloc : List Char
  path : List Char
  query : List Char
  fragment : List Char
deriving DecidableEq

/-- Scheme detection in `urlsplit`: the text before the first `:` is a
scheme when it is non-empty, starts with an ASCII letter and consists of
scheme characters; it is lowercased.  Otherwise the URL is untouched. -/
def splitScheme (url : List Char) : List Char × List Char :=
  match splitOnFirst ':' url with
  | some (before, after) =>
      if ¬ before.isEmpty ∧ reAlpha (before.headD ' ') ∧ before.all schemeChar
      then (pyLower before, after)
      else ([], url)
  | none => ([], url)

/-- `_WHATWG_C0_CONTROL_OR_SPACE`: code points `0x00`–`0x20`, stripped
from the left of the URL by `urlsplit`. -/
def c0ControlOrSpace (c : Char) : Bool := c.toNat ≤ 0x20

/-- The `[`/`]` mismatch test on a netloc that raises `ValueError`. -/
def bracketMismatch (netloc : List Char) : Bool :=
  (netloc.contains '[' ∧ ¬ netloc.contains ']')
    ∨ (netloc.contains ']' ∧ ¬ netloc.contains '[')

/-- `url.split(sep, 1)` as used by `urlsplit` for `#` and `?`: split at
the first occurrence, identity (with empty remainder) when absent. -/
def splitOnce (sep : Char) (r : List Char) : List Char × List Char :=
  match splitOnFirst sep r with
  | some (a, b) => (a, b)
  | none => (r, [])

/-- The netloc/fragment/query phase of `urlsplit`, after scheme
detection. -/
def splitAfterScheme (scheme rest0 : List Char) : Except String SplitResult :=
  let netloc :=
    if rest0.take 2 = ['/', '/']
    then (rest0.drop 2).takeWhile (fun c => ¬ netlocDelim c)
    else []
  let rest1 :=
    if rest0.take 2 = ['/', '/']
    then (rest0.drop 2).dropWhile (fun c => ¬ netlocDelim c)
    else rest0
  if bracketMismatch netloc then .error "Invalid IPv6 URL"
  else
    .ok ⟨scheme, netloc, (splitOnce '?' (splitOnce '#' rest1).fst).fst,
         (splitOnce '?' (splitOnce '#' rest1).fst).snd,
         (splitOnce '#' rest1).snd⟩

/-- `urllib.parse.urlsplit(url)` (CPython 3.11, `allow_fragments=True`).
Raises `ValueError` on a netloc containing `[` without `]` or vice versa.
(The additional `_check_bracketed_host` validation of a matched-bracket
IPv6/IPvFuture literal and the non-ASCII `_checknetloc` guard are outside
the ASCII bracket-free scope used by the theorems below.) -/
def urlsplit (url0 : List Char) : Except String SplitResult :=
  let url1 := removeUnsafe (url0.dropWhile c0ControlOrSpace)
  let sp := splitScheme url1
  splitAfterScheme sp.fst sp.snd

/-- `urllib.parse.uses_netloc` (CPython 3.11). -/
def uses_netloc : List String :=
  [ "", "ftp", "http", "gopher", "nntp", "telnet", "imap", "wais", "file"
  , "mms", "https", "shttp", "snews", "prospero", "rtsp", "rtsps", "rtspu"
  , "rsync", "svn", "svn+ssh", "sftp", "nfs", "git", "git+ssh", "ws", "wss" ]

/-- `urllib.parse.urlunsplit(components)` (CPython 3.11):
`if netloc or (scheme and scheme in uses_netloc and url[:2] != '//')`
reinstates the `//` authority marker. -/
def urlunsplit (p : SplitResult) : List Char :=
  let url := p.path
  let url :=
    if ¬ p.netloc.isEmpty
        ∨ (¬ p.scheme.isEmpty ∧ uses_netloc.contains (String.mk p.scheme)
            ∧ url.take 2 ≠ ['/', '/']) then
      let url' := if ¬ url.isEmpty ∧ url.headD ' ' ≠ '/' then '/' :: url else url
      '/' :: '/' :: (p.netloc ++ url')
    else url
  let url := if ¬ p.scheme.isEmpty then p.scheme ++ ':' :: url else url
  let url := if ¬ p.query.isEmpty then url ++ '?' :: p.query else url
  let url := if ¬ p.fragment.isEmpty then url ++ '#' :: p.fragment else url
  url

/-- Python `s.startswith(pre)`. -/
def listStartsWith (pre l : List Char) : Bool := l.take pre.length = pre

/-- The scheme-prefixing step of `_norm_url`: `//…` gets `https:`,
anything not starting `http://`/`https://` gets `https://`. -/
def addScheme (u : List Char) : List Char :=
  if listStartsWith "//".data u then "https:".data ++ u
  else if listStartsWith "http://".data u ∨ listStartsWith "https://".data u then u
  else "https://".data ++ u

/-- The value `_norm_url` rebuilds from the split parts:
`urlunsplit((parts.scheme, netloc.lower(), parts.path or "/",
parts.query, ""))`. -/
def normOutput (parts : SplitResult) : List Char :=
  urlunsplit
    ⟨parts.scheme, pyLower parts.netloc,
     if parts.path.isEmpty then ['/'] else parts.path, parts.query, []⟩

/-- `_norm_url(url)` from `app/main.py`: add a scheme when missing,
lowercase the netloc, default an empty path to `/`, keep the query, drop
the fragment.  A `ValueError` from `urlsplit` propagates. -/
def norm_url (url : List Char) : Except String (List Char) := do
  if url.isEmpty then
    return url
  let parts ← urlsplit (addScheme (pyStrip url))
  return normOutput parts

/-- `_norm_url` over `String`. -/
def norm_url_s (url : String) : Except String String :=
  (norm_url url.data).map String.mk

/-- `_host(url)` from `app/seo.py`: `urlsplit(url).netloc.lower()`. -/
def host_of (url : String) : Except String String :=
  (urlsplit url.data).map (fun p => String.mk (pyLower p.netloc))

/-! ## WAF cooldown and block heuristic (`app/seo.py`) -/

/-- Default of the `WAF_COOLDOWN_SEC` environment knob (seconds). -/
def WAF_COOLDOWN_SEC : ℤ := 900

/-- The block-page signatures of `_looks_like_waf`. -/
def WAF_SIGNALS : List String :=
  [ "access denied", "request blocked", "you have been blocked"
  , "the owner of this website", "reference #", "malicious or automated" ]

/-- Python `needle in hay` on strings: contiguous-substring test. -/
def containsSub (needle : List Char) : List Char → Bool
  | [] => needle.isEmpty
  | c :: t => listStartsWith needle (c :: t) || containsSub needle t

/-- `_looks_like_waf(html_bytes)`: empty body is not a block; otherwise
scan the first 8000 decoded characters, lowercased, for any signature. -/
def looks_like_waf (body : String) : Bool :=
  if body = "" then false
  else
    let t := pyLower (body.data.take 8000)
    WAF_SIGNALS.any (fun s => containsSub s.data t)

/-- The `_WAF_COOLDOWN` table: host → cooldown-expiry timestamp.
`time.time()` is modelled as an integer clock. -/
def coolGetD (t : List (String × ℤ)) (h : String) (d : ℤ) : ℤ :=
  match t.find? (fun kv => kv.fst = h) with
  | some kv => kv.snd
  | none => d

/-- Table update (`_WAF_COOLDOWN[h] = …`): replace in place or append. -/
def coolSet : List (String × ℤ) → String → ℤ → List (String × ℤ)
  | [], h, v => [(h, v)]
  | (k, w) :: rest, h, v =>
      if k = h then (k, v) :: rest else (k, w) :: coolSet rest h v

/-- `_in_cooldown(h)`: `_WAF_COOLDOWN.get(h, 0) > time.time()`. -/
def in_cooldown (t : List (String × ℤ)) (h : String) (now : ℤ) : Bool :=
  now < coolGetD t h 0

/-- `_enter_cooldown(h)`: `_WAF_COOLDOWN[h] = time.time() + WAF_COOLDOWN_SEC`. -/
def enter_cooldown (t : List (String × ℤ)) (h : String) (now : ℤ) :
    List (String × ℤ) :=
  coolSet t h (now + WAF_COOLDOWN_SEC)

/-! ## The scan orchestrator (`analyze` in `app/seo.py`)

The rendered fetch, the BeautifulSoup extraction and the auxiliary network
calls are external effects, supplied through a `ScanEnv`; everything
`analyze` itself computes — the cooldown gate, the result-dict assembly,
the indexability derivation, the WAF/AMP fallback and the best-effort
auxiliary merging — is translated line by line. -/

/-- The tuple `fetch` returns: `(load_ms, body, headers_lower, netinfo)`
with `netinfo`'s `final_url` and `status_code` (its `http_version` is the
constant `"unknown"` and `redirects` is `None`). -/
structure FetchRes where
  load_ms : ℤ
  body : String
  headers : List (String × String)
  final_url : String
  status_code : ℤ

/-- The signals `parse_html` extracts from the rendered DOM via
BeautifulSoup.  The extraction itself is an external-library traversal;
this record carries its outputs, which `parse_html` assembles into the
report dict. -/
structure Extracted where
  title : JVal
  description : JVal
  canonical : JVal
  robots_meta : JVal
  open_graph : JVal
  twitter_card : JVal
  has_open_graph : JVal
  has_twitter_card : JVal
  headings : JVal
  h1 : JVal
  h2 : JVal
  h3 : JVal
  h4 : JVal
  h5 : JVal
  h6 : JVal
  internal_links : JVal
  external_links : JVal
  nofollow_links : JVal
  images_missing_alt : JVal
  hreflang : JVal
  json_ld : JVal
  microdata : JVal
  rdfa : JVal
  sd_types : JVal
  json_ld_validation : JVal
  keyword_density_top : JVal
  is_amp : JVal
  amp_url : JVal
  checks : List (String × JVal)

/-- The return dict of `parse_html(url, body, headers, load_ms)`: the
exact key list and order of the source's return literal. -/
def parse_html (url : String) (e : Extracted) : List (String × JVal) :=
  [ ("url", .str url)
  , ("title", e.title)
  , ("description", e.description)
  , ("canonical", e.canonical)
  , ("robots_meta", e.robots_meta)
  , ("open_graph", e.open_graph)
  , ("twitter_card", e.twitter_card)
  , ("has_open_graph", e.has_open_graph)
  , ("has_twitter_card", e.has_twitter_card)
  , ("headings", e.headings)
  , ("h1", e.h1)
  , ("h2", e.h2)
  , ("h3", e.h3)
  , ("h4", e.h4)
  , ("h5", e.h5)
  , ("h6", e.h6)
  , ("internal_links", e.internal_links)
  , ("external_links", e.external_links)
  , ("nofollow_links", e.nofollow_links)
  , ("images_missing_alt", e.images_missing_alt)
  , ("hreflang", e.hreflang)
  , ("json_ld", e.json_ld)
  , ("microdata", e.microdata)
  , ("rdfa", e.rdfa)
  , ("sd_types", e.sd_types)
  , ("json_ld_validation", e.json_ld_validation)
  , ("keyword_density_top", e.keyword_density_top)
  , ("is_amp", e.is_amp)
  , ("amp_url", e.amp_url)
  , ("checks", .dict e.checks) ]

/-- The keys of `parse_html`'s return dict. -/
def parseHtmlKeys : List String :=
  [ "url", "title", "description", "canonical", "robots_meta", "open_graph"
  , "twitter_card", "has_open_graph", "has_twitter_card", "headings"
  , "h1", "h2", "h3", "h4", "h5", "h6", "internal_links", "external_links"
  , "nofollow_links", "images_missing_alt", "hreflang", "json_ld"
  , "microdata", "rdfa", "sd_types", "json_ld_validation"
  , "keyword_density_top", "is_amp", "amp_url", "checks" ]

/-- The keys `analyze` adds on top of `parse_html`'s: the full ScanResult
shape of the spec (its always-present fields; `errors`/`notes` appear only
when populated). -/
def scanResultKeys : List String :=
  parseHtmlKeys ++
  [ "status_code", "content_length", "load_time_ms", "performance"
  , "crawl_checks", "link_checks", "pagespeed" ]

/-- The content-signal keys the WAF/AMP fallback copies from the AMP
re-parse (the tuple in `analyze`'s `for k in (…)` loop, in order). -/
def contentKeys : List String :=
  [ "title", "description", "canonical", "robots_meta", "open_graph"
  , "twitter_card", "has_open_graph", "has_twitter_card", "headings"
  , "h1", "h2", "h3", "h4", "h5", "h6", "internal_links", "external_links"
  , "nofollow_links", "images_missing_alt", "hreflang", "json_ld"
  , "microdata", "rdfa", "sd_types", "json_ld_validation"
  , "keyword_density_top" ]

/-- The AMP copy loop: `if k in amp_res: result[k] = amp_res[k]`. -/
def copyContent (src dst : List (String × JVal)) : List (String × JVal) :=
  contentKeys.foldl
    (fun acc k =>
      match dGet src k with
      | some v => dSet acc k v
      | none => acc)
    dst

/-- Python decimal-string to int (`int(s)`): optional sign, digits,
surrounding whitespace allowed; anything else raises `ValueError`. -/
def digitsToNat (ds : List Char) : ℕ :=
  ds.foldl (fun a c => a * 10 + (c.toNat - '0'.toNat)) 0

def pyParseInt? (s : String) : Option ℤ :=
  match pyStrip s.data with
  | [] => none
  | '-' :: ds =>
      if ¬ ds.isEmpty ∧ ds.all Char.isDigit then some (-(digitsToNat ds : ℤ)) else none
  | '+' :: ds =>
      if ¬ ds.isEmpty ∧ ds.all Char.isDigit then some ((digitsToNat ds : ℤ)) else none
  | ds =>
      if ds.all Char.isDigit then some ((digitsToNat ds : ℤ)) else none

/-- `headers.get(k)` on the lowercased header map. -/
def hGet (headers : List (String × String)) (k : String) : Option String :=
  match headers.find? (fun kv => kv.fst = k) with
  | some kv => some kv.snd
  | none => none

/-- `int(headers.get("content-length") or len(body or b""))`: an absent or
empty header falls back to the body length; a non-numeric header value
raises `ValueError`. -/
def content_length_of (headers : List (String × String)) (body : String) :
    Except String ℤ :=
  match hGet headers "content-length" with
  | some s =>
      if s ≠ "" then
        match pyParseInt? s with
        | some n => .ok n
        | none => .error "ValueError: invalid literal for int()"
      else .ok (body.length : ℤ)
  | none => .ok (body.length : ℤ)

/-- `netinfo.get("final_url") or url` (also computed inside `fetch` as
`r.final_url or url`). -/
def finalUrlOf (url : String) (f : FetchRes) : String :=
  if f.final_url = "" then url else f.final_url

/-- The `result["performance"]` dict `analyze` builds. -/
def perfDict (url : String) (f : FetchRes) (cl : ℤ) : List (String × JVal) :=
  [ ("load_time_ms", .int f.load_ms)
  , ("page_size_bytes", .int cl)
  , ("http_version", .str "unknown")
  , ("final_url", .str (finalUrlOf url f))
  , ("redirects", .null)
  , ("https", .dict
      [ ("is_https", .bool (listStartsWith "https://".data (finalUrlOf url f).data))
      , ("ssl_checked", .bool false)
      , ("ssl_ok", .null) ]) ]

/-- Python `result[k]` on the report dict: `KeyError` when absent. -/
def rItem (d : List (String × JVal)) (k : String) : Except String JVal :=
  match dGet d k with
  | some v => .ok v
  | none => .error ("KeyError: " ++ k)

/-- Python `v[k]` on a nested value: `KeyError`/`TypeError` as in CPython. -/
def jItem : JVal → String → Except String JVal
  | .dict kvs, k => rItem kvs k
  | _, _ => .error "TypeError: not a dict"

/-- `result.setdefault(k, []).append(v)`.  In the modelled flows the key,
when present, always holds a list (it is only ever created by this very
operation), so the non-list fallback is unreachable. -/
def dSetdefaultAppend (d : List (String × JVal)) (k : String) (v : JVal) :
    List (String × JVal) :=
  match dGet d k with
  | some (.list xs) => dSet d k (.list (xs ++ [v]))
  | some _ => d
  | none => dSet d k (.list [v])

/-- `result[k1][k2] = v` where `result[k1]` is a dict (the `performance`
score injection). -/
def dSetIn (d : List (String × JVal)) (k1 k2 : String) (v : JVal) :
    List (String × JVal) :=
  match dGet d k1 with
  | some (.dict m) => dSet d k1 (.dict (dSet m k2 v))
  | _ => d

/-- `psi.get(strategy, {}).get("score")`; a missing strategy dict yields
`None`.  (A non-dict value under the strategy key cannot arise from
`_fetch_psi`, which always builds dicts there.) -/
def psiScore (d : List (String × JVal)) (k : String) : JVal :=
  match dGet d k with
  | some (.dict m) => dGetD m "score" .null
  | _ => .null

/-- The string fed to `fetch` in the AMP fallback (`result["amp_url"]`,
a string whenever present, produced by `parse_html`). -/
def jAsStr : JVal → String
  | .str s => s
  | _ => ""

/-- The score injection after `_fetch_psi`: when the call succeeded and
reported `enabled`, copy the mobile/desktop scores into the (always
present) `performance` dict; otherwise leave the result untouched. -/
def psiApply (psiRes : Option (List (String × JVal)))
    (d : List (String × JVal)) : List (String × JVal) :=
  match psiRes with
  | some psd =>
      if jTruthy (dGetD psd "enabled" .null) then
        dSetIn (dSetIn d "performance" "mobile_score" (psiScore psd "mobile"))
          "performance" "desktop_score" (psiScore psd "desktop")
      else d
  | none => d

/-- The early return of `analyze` when the host is in cooldown. -/
def cooldownPayload (url host : String) : List (String × JVal) :=
  [ ("url", .str url)
  , ("status_code", .int 0)
  , ("errors", .list
      [.str ("Temporarily cooled down for " ++ host ++ " after WAF block.")]) ]

/-- The external effects `analyze` consumes: the rendered fetch per URL,
the BeautifulSoup extraction per (url, body, headers), the robots/sitemap
fetch, the link-status sampling and the PageSpeed call (`none` models the
call raising, which the source catches), plus the fast-mode flag and the
wall clock. -/
structure ScanEnv where
  fetch : String → Except String FetchRes
  extract : String → String → List (String × String) → Extracted
  robots : String → Option JVal
  check_urls : JVal → ℕ → Option JVal
  psi : String → Option (List (String × JVal))
  psiErr : String
  fast : Bool
  now : ℤ

/-- `analyze(url)` from `app/seo.py`, over the cooldown table state.
Returns the report dict and the updated table; a raising `fetch`
(navigation failure) or a raising `int(...)`/dict access propagates as a
top-level error. -/
def analyze (env : ScanEnv) (cool : List (String × ℤ)) (url : String) :
    Except String (List (String × JVal) × List (String × ℤ)) := do
  let host ← host_of url
  if in_cooldown cool host env.now then
    return (cooldownPayload url host, cool)
  let f ← env.fetch url
  let e := env.extract url f.body f.headers
  let result := parse_html url e
  let result := dSet result "status_code" (.int f.status_code)
  let cl ← content_length_of f.headers f.body
  let result := dSet result "content_length" (.int cl)
  let result := dSet result "load_time_ms" (.int f.load_ms)
  let result := dSet result "performance" (.dict (perfDict url f cl))
  let checksV ← rItem result "checks"
  let rmi ← jItem checksV "robots_meta_index"
  let rmiOk ← jItem rmi "ok"
  let xrt ← jItem checksV "x_robots_tag"
  let xrtOk ← jItem xrt "ok"
  let indexable := decide (f.status_code ≠ 404) && jTruthy rmiOk && jTruthy xrtOk
  let checks2 ←
    (match checksV with
     | .dict kvs =>
         Except.ok (dSet kvs "indexable" (.dict
           [ ("value", .str (if indexable then "Yes" else "No"))
           , ("ok", .bool indexable) ]))
     | _ => Except.error "TypeError: checks is not a dict")
  let result := dSet result "checks" (.dict checks2)
  let st ←
    (if looks_like_waf f.body && jTruthy (dGetD result "amp_url" .null) then do
      let ampUrl := jAsStr (dGetD result "amp_url" .null)
      let f2 ← env.fetch ampUrl
      if f2.body ≠ "" then
        let e2 := env.extract ampUrl f2.body f2.headers
        let amp_res := parse_html ampUrl e2
        let result2 := copyContent amp_res result
        let result2 := dSetdefaultAppend result2 "notes"
          (.str "Canonical blocked by WAF; AMP analyzed instead.")
        pure (result2, cool)
      else
        let cool2 := enter_cooldown cool host env.now
        let result2 := dSetdefaultAppend result "errors"
          (.str "WAF/CDN blocked both canonical and AMP.")
        pure (result2, cool2)
    else pure (result, cool))
  let result := st.fst
  let cool := st.snd
  let finalU := finalUrlOf url f
  let result := dSet result "crawl_checks"
    (match env.robots finalU with
     | some v => v
     | none => .dict
         [ ("robots_url", .null), ("blocked_by_robots", .null)
         , ("sitemaps", .list []) ])
  let lim : ℕ := if env.fast then 4 else 10
  let result := dSet result "link_checks"
    (match env.check_urls (dGetD result "internal_links" (.list [])) lim,
           env.check_urls (dGetD result "external_links" (.list [])) lim with
     | some a, some b => .dict [("internal", a), ("external", b)]
     | _, _ => .dict [("internal", .list []), ("external", .list [])])
  let psiRes := env.psi finalU
  let result := dSet result "pagespeed"
    (match psiRes with
     | none => .dict
         [ ("enabled", .bool false)
         , ("message", .str ("PSI error: " ++ env.psiErr)) ]
     | some psd => .dict psd)
  let result := psiApply psiRes result
  return (result, cool)

/-- Project the payload out of a successful result (default elsewhere). -/
def okD {α : Type} (d : α) : Except String α → α
  | .ok a => a
  | .error _ => d

/-- A concrete extraction record: every signal at its absent sentinel and
the two always-present robots checks passing. -/
def extractedNull : Extracted :=
  { title := .null, description := .null, canonical := .null
  , robots_meta := .null, open_graph := .dict [], twitter_card := .dict []
  , has_open_graph := .bool false, has_twitter_card := .bool false
  , headings := .dict [], h1 := .list [], h2 := .list [], h3 := .list []
  , h4 := .list [], h5 := .list [], h6 := .list []
  , internal_links := .list [], external_links := .list []
  , nofollow_links := .list [], images_missing_alt := .list []
  , hreflang := .list [], json_ld := .list [], microdata := .list []
  , rdfa := .list [], sd_types := .dict [], json_ld_validation := .dict []
  , keyword_density_top := .list [], is_amp := .bool false, amp_url := .null
  , checks := [ ("robots_meta_index", .dict [("ok", .bool true)])
              , ("x_robots_tag", .dict [("ok", .bool true)]) ] }

/-- A concrete scan environment: the render succeeds, the auxiliary
network calls yield nothing, PSI fails, fast mode, clock at zero. -/
def envPlain : ScanEnv :=
  { fetch := fun _ => .ok ⟨12, "<html>ok</html>", [], "https://example.com/", 200⟩
  , extract := fun _ _ _ => extractedNull
  , robots := fun _ => none
  , check_urls := fun _ _ => none
  , psi := fun _ => none
  , psiErr := "offline"
  , fast := true
  , now := 0 }

/-- A concrete environment whose primary render is a WAF block page
carrying an AMP pointer; the AMP render succeeds with a fresh title. -/
def envWaf : ScanEnv :=
  { envPlain with
    fetch := fun u =>
      if u = "https://example.com/amp" then
        .ok ⟨5, "<html>amp</html>", [], "https://example.com/amp", 200⟩
      else .ok ⟨12, "access denied", [], "https://example.com/", 403⟩
  , extract := fun u _ _ =>
      if u = "https://example.com/amp" then
        { extractedNull with title := .str "Amp Title" }
      else { extractedNull with amp_url := .str "https://example.com/amp" } }

/-! # Theorems -/

/-- Characters are determined by their code points. -/
theorem char_eq_of_toNat_eq {c d : Char} (h : c.toNat = d.toNat) : c = d :=
  Char.eq_of_val_eq (UInt32.ext h)

/-- The missing-field list `validateItem` reports. -/
theorem validateItem_missing (it : List (String × JVal)) :
    (validateItem it).missing
      = (sd_req (pyStr (sdTypeVal it))).filter (fun f => sdFieldMissing it f) := rfl

/-- The ok flag `validateItem` reports. -/
theorem validateItem_ok (it : List (String × JVal)) :
    (validateItem it).ok
      = if (sd_req (pyStr (sdTypeVal it))).isEmpty then true
        else ((validateItem it).missing).isEmpty := rfl

/-- **C8** — Wait-mode normalization: for every input token (including
`None` and the empty string) and every default drawn from the canonical
set, the result lies in the canonical set; every alias-table entry maps to
its canonical mode; aliases are recognized case-insensitively (e.g.
`"DOM"`, `" Network_Idle "`); a canonical token maps to itself; `None`,
empty or unrecognized input yields the default. -/
theorem wait_mode_normalization (val : Option String) (default : String)
    (hdef : default ∈ ALLOWED_WAITS) :
    normalize_wait_until val default ∈ ALLOWED_WAITS
    ∧ (∀ c ∈ ALLOWED_WAITS, normalize_wait_until (some c) default = c)
    ∧ (∀ p ∈ WAIT_ALIASES, normalize_wait_until (some p.fst) default = p.snd)
    ∧ normalize_wait_until (some "DOM") default = "domcontentloaded"
    ∧ normalize_wait_until (some " Network_Idle ") default = "networkidle"
    ∧ normalize_wait_until none default = default
    ∧ normalize_wait_until (some "") default = default
    ∧ normalize_wait_until (some "no-such-mode") default = default := by
  refine ⟨?_, ?_, ?_, rfl, rfl, rfl, rfl, rfl⟩
  · simp only [normalize_wait_until]
    split
    · next h => exact List.mem_of_elem_eq_true h
    · exact hdef
  · intro c hc
    fin_cases hc <;> rfl
  · intro p hp
    fin_cases hp <;> rfl

/-- Witness for C8 at a concrete alias and default. -/
theorem wait_mode_normalization_witness :
    normalize_wait_until (some "dom") "load" ∈ ALLOWED_WAITS
    ∧ normalize_wait_until (some "no-such-mode") "load" = "load" := by
  have h := wait_mode_normalization (some "dom") "load" (by decide)
  exact ⟨h.1, (wait_mode_normalization (some "no-such-mode") "load"
    (by decide)).2.2.2.2.2.2.2⟩

/-- **C7** — `validate_jsonld` against the fixed table: the summary's
`ok_count` counts the ok items and `has_errors` holds iff some item is not
ok; the per-item report is the pointwise validation; an `Event` item
lacking `startDate` is not ok with `startDate` listed missing; an item
whose type has no table entry is always ok. -/
theorem validate_jsonld_table_spec (jsonld_any : List JVal) :
    ((validate_jsonld jsonld_any).summary.ok_count
        = ((validate_jsonld jsonld_any).items.filter (fun r => r.ok)).length)
    ∧ ((validate_jsonld jsonld_any).summary.has_errors = true
        ↔ ∃ r ∈ (validate_jsonld jsonld_any).items, r.ok = false)
    ∧ (∀ i : ℕ, ∀ it, (jsonld_items jsonld_any).get? i = some it →
        (validate_jsonld jsonld_any).items.get? i = some (validateItem it))
    ∧ (∀ it, pyStr (sdTypeVal it) = "Event" → dGet it "startDate" = none →
        (validateItem it).ok = false ∧ "startDate" ∈ (validateItem it).missing)
    ∧ (∀ it, sd_req (pyStr (sdTypeVal it)) = [] → (validateItem it).ok = true) := by
  refine ⟨rfl, ?_, ?_, ?_, ?_⟩
  · simp only [validate_jsonld, List.any_eq_true]
    constructor
    · rintro ⟨r, hr, hok⟩
      exact ⟨r, hr, by simpa using hok⟩
    · rintro ⟨r, hr, hok⟩
      exact ⟨r, hr, by simpa using hok⟩
  · intro i it h
    simp only [validate_jsonld, List.get?_map, h]
    rfl
  · intro it hev hnone
    have hmiss : sdFieldMissing it "startDate" = true := by
      unfold sdFieldMissing
      rw [hnone]
    have hreq : sd_req (pyStr (sdTypeVal it)) = ["name", "startDate"] := by
      rw [hev]; rfl
    have hm : "startDate" ∈ (validateItem it).missing := by
      rw [validateItem_missing, hreq]
      exact List.mem_filter.mpr ⟨by decide, hmiss⟩
    refine ⟨?_, hm⟩
    rw [validateItem_ok, hreq]
    have hne : ((validateItem it).missing).isEmpty = false := by
      cases hemp : ((validateItem it).missing).isEmpty
      · rfl
      · rw [List.isEmpty_iff] at hemp
        rw [hemp] at hm
        exact absurd hm (List.not_mem_nil _)
    simp [hne]
  · intro it h
    rw [validateItem_ok, h]
    rfl

/-- Witness for C7 at a concrete item list (one `Event` without
`startDate`, one unlisted type). -/
theorem validate_jsonld_table_spec_witness :
    (validateItem [("@type", JVal.str "Event"), ("name", JVal.str "Gig")]).ok = false
    ∧ "startDate" ∈ (validateItem
        [("@type", JVal.str "Event"), ("name", JVal.str "Gig")]).missing
    ∧ (validateItem [("@type", JVal.str "VideoObject")]).ok = true := by
  have h := validate_jsonld_table_spec []
  refine ⟨?_, ?_, ?_⟩
  · exact (h.2.2.2.1 _ (by rfl) (by rfl)).1
  · exact (h.2.2.2.1 _ (by rfl) (by rfl)).2
  · exact h.2.2.2.2 _ (by rfl)

/-- **C10** — a required field present with an empty or whitespace-only
string value counts as missing: the item is not ok and the field appears
in its missing list. -/
theorem blank_required_field_counts_missing (it : List (String × JVal))
    (f s : String)
    (hreq : f ∈ sd_req (pyStr (sdTypeVal it)))
    (hval : dGet it f = some (.str s))
    (hblank : (pyStrip s.data).isEmpty = true) :
    (validateItem it).ok = false ∧ f ∈ (validateItem it).missing := by
  have hmiss : sdFieldMissing it f = true := by
    unfold sdFieldMissing
    rw [hval]
    exact hblank
  have hm : f ∈ (validateItem it).missing := by
    rw [validateItem_missing]
    exact List.mem_filter.mpr ⟨hreq, hmiss⟩
  refine ⟨?_, hm⟩
  rw [validateItem_ok]
  have hne : ((validateItem it).missing).isEmpty = false := by
    cases hemp : ((validateItem it).missing).isEmpty
    · rfl
    · rw [List.isEmpty_iff] at hemp
      rw [hemp] at hm
      exact absurd hm (List.not_mem_nil _)
  have hreqne : (sd_req (pyStr (sdTypeVal it))).isEmpty = false := by
    cases hemp : (sd_req (pyStr (sdTypeVal it))).isEmpty
    · rfl
    · rw [List.isEmpty_iff] at hemp
      rw [hemp] at hreq
      exact absurd hreq (List.not_mem_nil _)
  simp [hne, hreqne]

/-- Witness for C10: an `Event` whose `startDate` is whitespace-only. -/
theorem blank_required_field_counts_missing_witness :
    (validateItem [("@type", JVal.str "Event"), ("name", JVal.str "Gig"),
        ("startDate", JVal.str "   ")]).ok = false
    ∧ "startDate" ∈ (validateItem [("@type", JVal.str "Event"),
        ("name", JVal.str "Gig"), ("startDate", JVal.str "   ")]).missing :=
  blank_required_field_counts_missing _ "startDate" "   "
    (by decide) (by rfl) (by rfl)

/-- **C3 counterexample** — `stop()` does not suppress close-time errors:
with a live browser handle whose `close()` raises, the exception
propagates and none of the three reset assignments run, so the state is
not reset. -/
theorem pool_stop_error_propagates :
    pool_stop true false ⟨some 0, some 0, true⟩
      = (some "browser.close raised", ⟨some 0, some 0, true⟩)
    ∧ (pool_stop true false ⟨some 0, some 0, true⟩).snd ≠ poolReset := by
  exact ⟨rfl, by decide⟩

/-- **C3 (amended)** — `stop` resets the browser handle, the playwright
handle and the started flag whenever the closes succeed; it is idempotent
(from the reset state it never raises and keeps the reset state); but a
close-time error is NOT suppressed: it propagates and leaves the state
unchanged.  After a completed `stop`, `start` relaunches. -/
theorem pool_stop_spec (bFail pFail : Bool) (s : PoolState) :
    pool_stop false false s = (none, poolReset)
    ∧ pool_stop bFail pFail poolReset = (none, poolReset)
    ∧ ((pool_stop bFail pFail s).fst.isSome = true →
        (pool_stop bFail pFail s).snd = s)
    ∧ pool_start poolReset = (⟨some 0, some 0, true⟩, true) := by
  refine ⟨?_, ?_, ?_, rfl⟩
  · unfold pool_stop
    simp
  · unfold pool_stop poolReset
    simp
  · unfold pool_stop
    split
    · intro _; rfl
    · split
      · intro _; rfl
      · intro h; simp at h

/-- Witness for C3's amended theorem at concrete states. -/
theorem pool_stop_spec_witness :
    pool_stop false false ⟨some 0, some 0, true⟩ = (none, poolReset)
    ∧ (pool_stop true false ⟨some 0, some 0, true⟩).snd = ⟨some 0, some 0, true⟩ := by
  refine ⟨(pool_stop_spec false false ⟨some 0, some 0, true⟩).1, ?_⟩
  exact (pool_stop_spec true false ⟨some 0, some 0, true⟩).2.2.1 (by decide)

/-- **C4 counterexample** — two concurrent `start()` callers (each
suspending in the awaited launch region between the `_started` check and
the commit) can both launch: under the interleaving 0,1,0,1,0,1 both
callers complete and two browser launches occur, refuting "exactly one
browser launch occurs". -/
theorem pool_start_race_double_launch :
    (runSchedule (startRace 2) [0, 1, 0, 1, 0, 1]).launches = 2
    ∧ (runSchedule (startRace 2) [0, 1, 0, 1, 0, 1]).pcs
        = [StartPC.pcDone, StartPC.pcDone]
    ∧ (runSchedule (startRace 2) [0, 1, 0, 1, 0, 1]).started = true := by
  exact ⟨rfl, rfl, rfl⟩

/-- **C4 (amended)** — `start` is idempotent sequentially: a call on a
started pool performs no launch; a serialized pair of `start` calls
performs exactly one launch.  The source takes no lock, so racing
interleaved callers may each launch (see the counterexample). -/
theorem pool_start_sequential_spec (s : PoolState) (hs : s.started = true) :
    pool_start s = (s, false)
    ∧ (runSchedule (startRace 2) [0, 0, 0, 1]).launches = 1
    ∧ (runSchedule (startRace 2) [0, 0, 0, 1]).pcs
        = [StartPC.pcDone, StartPC.pcDone] := by
  refine ⟨?_, rfl, rfl⟩
  unfold pool_start
  simp [hs]

/-- Witness for C4's amended theorem at a started pool. -/
theorem pool_start_sequential_spec_witness :
    pool_start ⟨some 0, some 0, true⟩ = (⟨some 0, some 0, true⟩, false) :=
  (pool_start_sequential_spec ⟨some 0, some 0, true⟩ rfl).1

/-- **C2** — every render context the pool's scoped acquisition creates is
closed exactly once on every exit path of the caller's body: whatever the
body's outcome (normal completion or a raised exception, including a
navigation timeout surviving the `networkidle` retry), the `finally`
appends exactly one close; instantiated to `fetch_rendered`'s body for
every combination of goto outcomes. -/
theorem render_context_closed_once {α : Type} (body : List PoolEv × Except String α)
    (hbody : body.fst.count PoolEv.closeCtx = 0) :
    ((pool_page_run false false body).fst.count PoolEv.closeCtx = 1)
    ∧ ((pool_page_run false false body).fst.count PoolEv.openCtx
        = 1 + body.fst.count PoolEv.openCtx)
    ∧ (∀ goto1 goto2 : Except String ℕ,
        ((pool_page_run false false (fetch_rendered_body goto1 goto2)).fst.count
            PoolEv.closeCtx = 1)) := by
  refine ⟨?_, ?_, ?_⟩
  · simp [pool_page_run, List.count_cons, List.count_append, hbody]
  · simp [pool_page_run, List.count_cons, List.count_append]
    omega
  · intro goto1 goto2
    cases goto1 <;> cases goto2 <;> rfl

/-- Witness for C2: a body that raises (timeout on both goto attempts)
still produces exactly one close. -/
theorem render_context_closed_once_witness :
    ((pool_page_run false false (([], Except.error "TimeoutError") :
        List PoolEv × Except String ℕ)).fst.count PoolEv.closeCtx = 1) :=
  (render_context_closed_once (([], Except.error "TimeoutError") :
      List PoolEv × Except String ℕ) rfl).1

/-- `Rat.floor` agrees with the `FloorRing` floor on `ℚ`. -/
theorem rat_floor_eq_floor (q : ℚ) : (Rat.floor q : ℤ) = ⌊q⌋ := rfl

/-- Round-half-even overshoots by at most 1/2. -/
theorem roundHalfEven_le (q : ℚ) : (roundHalfEven q : ℚ) ≤ q + 1/2 := by
  unfold roundHalfEven
  rw [rat_floor_eq_floor]
  have hfl : ((⌊q⌋ : ℤ) : ℚ) ≤ q := Int.floor_le q
  split
  · linarith
  · split
    · next h1 h2 => push_cast; linarith
    · split
      · next h1 h2 h3 =>
        have : q - (⌊q⌋ : ℚ) = 1/2 := le_antisymm (not_lt.mp h2) (not_lt.mp h1)
        linarith
      · next h1 h2 h3 =>
        have : q - (⌊q⌋ : ℚ) = 1/2 := le_antisymm (not_lt.mp h2) (not_lt.mp h1)
        push_cast
        linarith

/-- `round(x, 2)` overshoots by at most 1/200. -/
theorem pyRound2_le (q : ℚ) : pyRound2 q ≤ q + 1/200 := by
  unfold pyRound2
  have h := roundHalfEven_le (q * 100)
  linarith

/-- Stable descending insertion permutes. -/
theorem insertByCountDesc_perm (x : String × ℕ) (l : List (String × ℕ)) :
    (insertByCountDesc x l).Perm (x :: l) := by
  induction l with
  | nil => exact List.Perm.refl _
  | cons y ys ih =>
    unfold insertByCountDesc
    split
    · exact (ih.cons y).trans (List.Perm.swap x y ys)
    · exact List.Perm.refl _

/-- The stable sort permutes its input. -/
theorem sortByCountDesc_perm (l : List (String × ℕ)) :
    (sortByCountDesc l).Perm l := by
  induction l with
  | nil => exact List.Perm.refl _
  | cons a l ih =>
    have : sortByCountDesc (a :: l) = insertByCountDesc a (sortByCountDesc l) := rfl
    rw [this]
    exact (insertByCountDesc_perm a (sortByCountDesc l)).trans (ih.cons a)

/-- Dropping entries cannot raise the count sum. -/
theorem sum_counts_take_le (l : List (String × ℕ)) (n : ℕ) :
    ((l.take n).map Prod.snd).sum ≤ (l.map Prod.snd).sum := by
  conv_rhs => rw [← List.take_append_drop n l]
  rw [List.map_append, List.sum_append]
  exact Nat.le_add_right _ _

/-- Count sums are invariant under permutation. -/
theorem perm_sum_counts {l₁ l₂ : List (String × ℕ)} (h : l₁.Perm l₂) :
    (l₁.map Prod.snd).sum = (l₂.map Prod.snd).sum :=
  (h.map Prod.snd).sum_eq

/-- Casting a count sum to `ℚ` commutes with summation. -/
theorem sum_counts_cast (l : List (String × ℕ)) :
    (l.map (fun wc => ((wc.snd : ℕ) : ℚ))).sum = (((l.map Prod.snd).sum : ℕ) : ℚ) := by
  induction l with
  | nil => simp
  | cons a l ih => simp [ih]

/-- Distributing the shared denominator over a percentage sum. -/
theorem sum_percent_eq (l : List (String × ℕ)) (T : ℚ) :
    (l.map (fun wc => 100 * (wc.snd : ℚ) / T)).sum
      = 100 * (l.map (fun wc => ((wc.snd : ℕ) : ℚ))).sum / T := by
  induction l with
  | nil => simp
  | cons a l ih =>
    simp only [List.map_cons, List.sum_cons, ih]
    ring

/-- Rounding each percentage adds at most 1/200 per entry. -/
theorem sum_round_le (l : List (String × ℕ)) (T : ℚ) :
    (l.map (fun wc => pyRound2 (100 * (wc.snd : ℚ) / T))).sum
      ≤ (l.map (fun wc => 100 * (wc.snd : ℚ) / T)).sum + l.length * (1/200) := by
  induction l with
  | nil => simp
  | cons a l ih =>
    simp only [List.map_cons, List.sum_cons, List.length_cons]
    have h := pyRound2_le (100 * (a.snd : ℚ) / T)
    push_cast
    linarith

/-- **C5 counterexample** — six distinct non-stopword words of equal
frequency: each percent is `round(100/6, 2) = 16.67` and the six percents
sum to 100.02, exceeding 100, refuting "the percent values across the
returned top-N list always sum to at most 100". -/
theorem keyword_density_sum_exceeds_100 :
    ((keyword_density "aaa bbb ccc ddd eee fff" 10).map KDEntry.percent).sum
      = 5001/50
    ∧ ¬ (((keyword_density "aaa bbb ccc ddd eee fff" 10).map KDEntry.percent).sum
      ≤ 100) := by
  have h : ((keyword_density "aaa bbb ccc ddd eee fff" 10).map KDEntry.percent).sum
      = 5001/50 := by
    with_unfolding_all rfl
  refine ⟨h, ?_⟩
  rw [h]
  norm_num

/-- **C5 (amended)** — each returned entry's percent equals
`round(100*count/total, 2)` (total = non-stopword token count, floored at
1), at most `top_n = 10` entries are returned, and the percents sum to at
most 100.05 = 100 + 10·(1/200): rounding half-to-even can push the sum
above 100 by at most 1/200 per entry, and does (see the counterexample). -/
theorem keyword_density_spec (text : String) :
    (∀ e ∈ keyword_density text 10,
        e.percent = pyRound2 (100 * (e.count : ℚ) / kdTotal text))
    ∧ (keyword_density text 10).length ≤ 10
    ∧ ((keyword_density text 10).map KDEntry.percent).sum ≤ 100 + 1/20 := by
  refine ⟨?_, ?_, ?_⟩
  · intro e he
    unfold keyword_density at he
    rw [List.mem_map] at he
    obtain ⟨wc, _, hew⟩ := he
    rw [← hew]
  · unfold keyword_density
    rw [List.length_map, List.length_take]
    exact min_le_left _ _
  · have hmap : (keyword_density text 10).map KDEntry.percent
        = ((sortByCountDesc (kdFreq text)).take 10).map
            (fun wc => pyRound2 (100 * (wc.snd : ℚ) / kdTotal text)) := by
      unfold keyword_density
      rw [List.map_map]
      rfl
    rw [hmap]
    set l := (sortByCountDesc (kdFreq text)).take 10 with hl
    have h1 := sum_round_le l (kdTotal text)
    have h2 := sum_percent_eq l (kdTotal text)
    have hT1 : (1 : ℚ) ≤ kdTotal text := by
      unfold kdTotal
      split
      · norm_num
      · next h0 =>
        have : 1 ≤ ((kdFreq text).map Prod.snd).sum := Nat.one_le_iff_ne_zero.mpr h0
        exact_mod_cast this
    have hcount : ((l.map Prod.snd).sum : ℕ) ≤ ((kdFreq text).map Prod.snd).sum := by
      calc (l.map Prod.snd).sum
          ≤ ((sortByCountDesc (kdFreq text)).map Prod.snd).sum :=
            sum_counts_take_le _ 10
        _ = ((kdFreq text).map Prod.snd).sum :=
            perm_sum_counts (sortByCountDesc_perm _)
    have hcountQ : (l.map (fun wc => ((wc.snd : ℕ) : ℚ))).sum ≤ kdTotal text := by
      rw [sum_counts_cast]
      unfold kdTotal
      split
      · next h0 =>
        rw [h0] at hcount
        have : (l.map Prod.snd).sum = 0 := Nat.le_zero.mp hcount
        rw [this]
        norm_num
      · exact_mod_cast hcount
    have hlen : (l.length : ℚ) ≤ 10 := by
      have h10 : l.length ≤ 10 := by
        rw [hl, List.length_take]
        exact min_le_left _ _
      exact_mod_cast h10
    have hdiv : 100 * (l.map (fun wc => ((wc.snd : ℕ) : ℚ))).sum / kdTotal text
        ≤ 100 := by
      rw [div_le_iff₀ (by linarith : (0:ℚ) < kdTotal text)]
      have := mul_le_mul_of_nonneg_left hcountQ (show (0:ℚ) ≤ 100 by norm_num)
      linarith
    calc (l.map (fun wc => pyRound2 (100 * (wc.snd : ℚ) / kdTotal text))).sum
        ≤ (l.map (fun wc => 100 * (wc.snd : ℚ) / kdTotal text)).sum
            + l.length * (1/200) := h1
      _ = 100 * (l.map (fun wc => ((wc.snd : ℕ) : ℚ))).sum / kdTotal text
            + l.length * (1/200) := by rw [h2]
      _ ≤ 100 + 10 * (1/200) := by linarith
      _ = 100 + 1/20 := by norm_num

/-- Witness instantiating C5's amended bound at a concrete text. -/
theorem keyword_density_spec_witness :
    ((keyword_density "aaa bbb ccc ddd eee fff" 10).map KDEntry.percent).sum
      ≤ 100 + 1/20 :=
  (keyword_density_spec "aaa bbb ccc ddd eee fff").2.2

/-! ### List-splitting lemmas for the URL parser -/

/-- `splitOnFirst` misses an absent separator. -/
theorem splitOnFirst_eq_none {sep : Char} {l : List Char} (h : sep ∉ l) :
    splitOnFirst sep l = none := by
  induction l with
  | nil => rfl
  | cons c t ih =>
    have hc : ¬ c = sep := fun he => h (by rw [he]; exact List.mem_cons_self _ _)
    have ht : sep ∉ t := fun hm => h (List.mem_cons_of_mem c hm)
    unfold splitOnFirst
    rw [if_neg hc, ih ht]

/-- `splitOnFirst` finds the first separator. -/
theorem splitOnFirst_append {sep : Char} {a b : List Char} (h : sep ∉ a) :
    splitOnFirst sep (a ++ sep :: b) = some (a, b) := by
  induction a with
  | nil =>
    show splitOnFirst sep (sep :: b) = _
    unfold splitOnFirst
    rw [if_pos rfl]
  | cons c t ih =>
    have hc : ¬ c = sep := fun he => h (by rw [he]; exact List.mem_cons_self _ _)
    have ht : sep ∉ t := fun hm => h (List.mem_cons_of_mem c hm)
    show splitOnFirst sep (c :: (t ++ sep :: b)) = _
    unfold splitOnFirst
    rw [if_neg hc, ih ht]

/-- A successful `splitOnFirst` decomposes its input, the prefix free of
the separator. -/
theorem splitOnFirst_some_decomp {sep : Char} {l a b : List Char}
    (h : splitOnFirst sep l = some (a, b)) : l = a ++ sep :: b ∧ sep ∉ a := by
  induction l generalizing a b with
  | nil => simp [splitOnFirst] at h
  | cons c t ih =>
    unfold splitOnFirst at h
    by_cases hc : c = sep
    · rw [if_pos hc] at h
      simp only [Option.some.injEq, Prod.mk.injEq] at h
      obtain ⟨ha, hb⟩ := h
      subst ha
      subst hb
      subst hc
      exact ⟨rfl, List.not_mem_nil _⟩
    · rw [if_neg hc] at h
      cases hsp : splitOnFirst sep t with
      | none => rw [hsp] at h; simp at h
      | some ab =>
        obtain ⟨a', b'⟩ := ab
        rw [hsp] at h
        simp only [Option.some.injEq, Prod.mk.injEq] at h
        obtain ⟨ha, hb⟩ := h
        subst hb
        obtain ⟨hdec, hnm⟩ := ih hsp
        subst hdec
        rw [← ha]
        refine ⟨rfl, ?_⟩
        intro hm
        rcases List.mem_cons.mp hm with he | hm'
        · exact hc he.symm
        · exact hnm hm'

/-- `takeWhile` across an append whose first failure is the marker
element. -/
theorem takeWhile_append_cons {p : Char → Bool} {a : List Char} {c : Char}
    {t : List Char} (ha : ∀ x ∈ a, p x = true) (hc : p c = false) :
    (a ++ c :: t).takeWhile p = a := by
  induction a with
  | nil =>
    show (c :: t).takeWhile p = []
    simp [List.takeWhile_cons, hc]
  | cons x xs ih =>
    have hx : p x = true := ha x (List.mem_cons_self _ _)
    show ((x :: (xs ++ c :: t))).takeWhile p = _
    simp only [List.takeWhile_cons, hx, if_true]
    rw [ih (fun y hy => ha y (List.mem_cons_of_mem x hy))]

/-- `dropWhile` across an append whose first failure is the marker
element. -/
theorem dropWhile_append_cons {p : Char → Bool} {a : List Char} {c : Char}
    {t : List Char} (ha : ∀ x ∈ a, p x = true) (hc : p c = false) :
    (a ++ c :: t).dropWhile p = c :: t := by
  induction a with
  | nil =>
    show (c :: t).dropWhile p = _
    rw [List.dropWhile_cons, hc]
    rfl
  | cons x xs ih =>
    have hx : p x = true := ha x (List.mem_cons_self _ _)
    show ((x :: (xs ++ c :: t))).dropWhile p = _
    rw [List.dropWhile_cons, hx]
    · exact ih (fun y hy => ha y (List.mem_cons_of_mem x hy))

/-- Everything surviving `takeWhile` satisfies the predicate. -/
theorem mem_takeWhile_pred {p : Char → Bool} {l : List Char} {x : Char}
    (h : x ∈ l.takeWhile p) : p x = true := by
  induction l with
  | nil => simp [List.takeWhile] at h
  | cons c t ih =>
    rw [List.takeWhile_cons] at h
    by_cases hc : p c
    · rw [if_pos hc] at h
      rcases List.mem_cons.mp h with he | hm
      · rw [he]; exact hc
      · exact ih hm
    · rw [if_neg hc] at h
      exact absurd h (List.not_mem_nil _)

/-- The head surviving `dropWhile` fails the predicate. -/
theorem dropWhile_head_false {p : Char → Bool} {l : List Char} {d : Char}
    (h : l.dropWhile p ≠ []) : p ((l.dropWhile p).headD d) = false := by
  induction l with
  | nil => exact absurd rfl h
  | cons c t ih =>
    by_cases hp : p c
    · rw [List.dropWhile_cons, if_pos hp] at h ⊢
      exact ih h
    · rw [List.dropWhile_cons, if_neg hp]
      exact Bool.eq_false_iff.mpr hp

/-- `headD` looks only at a non-empty left component. -/
theorem headD_append_of_ne_nil {a b : List Char} {d : Char} (h : a ≠ []) :
    (a ++ b).headD d = a.headD d := by
  cases a with
  | nil => exact absurd rfl h
  | cons x xs => rfl

/-- A true `listStartsWith` decomposes the list. -/
theorem listStartsWith_decomp {pre l : List Char}
    (h : listStartsWith pre l = true) : l = pre ++ l.drop pre.length := by
  have ht : l.take pre.length = pre := of_decide_eq_true h
  conv_lhs => rw [← List.take_append_drop pre.length l]
  rw [ht]

/-! ### ASCII-lowercase lemmas -/

/-- `Char.ofNat` round-trips on small code points. -/
theorem char_ofNat_toNat {n : ℕ} (h : n ≤ 200) : (Char.ofNat n).toNat = n := by
  unfold Char.ofNat
  split
  · rfl
  · omega

/-- Lowercasing fixes anything outside `A`–`Z`. -/
theorem pyLowerChar_eq_self {c : Char} (h : ¬ ('A' ≤ c ∧ c ≤ 'Z')) :
    pyLowerChar c = c := by
  unfold pyLowerChar
  rw [if_neg h]

/-- Lowercasing maps `A`–`Z` into `a`–`z`. -/
theorem pyLowerChar_upper {c : Char} (h : 'A' ≤ c ∧ c ≤ 'Z') :
    97 ≤ (pyLowerChar c).toNat ∧ (pyLowerChar c).toNat ≤ 122 := by
  unfold pyLowerChar
  rw [if_pos h]
  have h1 : 65 ≤ c.toNat := h.1
  have h2 : c.toNat ≤ 90 := h.2
  rw [char_ofNat_toNat (by omega)]
  omega

/-- For a target character outside both letter ranges, lowercasing
neither creates nor destroys an occurrence. -/
theorem pyLowerChar_eq_iff {c d : Char}
    (hd : d.toNat < 65 ∨ (90 < d.toNat ∧ d.toNat < 97) ∨ 122 < d.toNat) :
    pyLowerChar c = d ↔ c = d := by
  constructor
  · intro h
    by_cases hu : 'A' ≤ c ∧ c ≤ 'Z'
    · exfalso
      have hr := pyLowerChar_upper hu
      rw [h] at hr
      omega
    · rw [pyLowerChar_eq_self hu] at h
      exact h
  · intro h
    subst h
    apply pyLowerChar_eq_self
    intro hu
    have h1 : 65 ≤ c.toNat := hu.1
    have h2 : c.toNat ≤ 90 := hu.2
    omega

/-- Lowercasing twice is lowercasing once. -/
theorem pyLowerChar_idem (c : Char) :
    pyLowerChar (pyLowerChar c) = pyLowerChar c := by
  by_cases h : 'A' ≤ c ∧ c ≤ 'Z'
  · have hu := pyLowerChar_upper h
    apply pyLowerChar_eq_self
    intro h2
    have h1 : 65 ≤ (pyLowerChar c).toNat := h2.1
    have h2' : (pyLowerChar c).toNat ≤ 90 := h2.2
    omega
  · rw [pyLowerChar_eq_self h, pyLowerChar_eq_self h]

/-- `str.lower` is idempotent. -/
theorem pyLower_idem (l : List Char) : pyLower (pyLower l) = pyLower l := by
  unfold pyLower
  rw [List.map_map]
  apply List.map_congr_left
  intro c _
  exact pyLowerChar_idem c

/-- Lowercasing preserves the netloc delimiters. -/
theorem netlocDelim_pyLowerChar (c : Char) :
    netlocDelim (pyLowerChar c) = netlocDelim c := by
  unfold netlocDelim
  apply decide_eq_decide.mpr
  exact or_congr (pyLowerChar_eq_iff (by decide))
    (or_congr (pyLowerChar_eq_iff (by decide)) (pyLowerChar_eq_iff (by decide)))

/-- Lowercasing preserves the unsafe characters. -/
theorem unsafeChar_pyLowerChar (c : Char) :
    unsafeChar (pyLowerChar c) = unsafeChar c := by
  unfold unsafeChar
  apply decide_eq_decide.mpr
  exact or_congr (pyLowerChar_eq_iff (by decide))
    (or_congr (pyLowerChar_eq_iff (by decide)) (pyLowerChar_eq_iff (by decide)))

/-- Lowercasing preserves occurrences of characters outside the letter
ranges (such as brackets). -/
theorem contains_pyLower {l : List Char} {d : Char}
    (hd : d.toNat < 65 ∨ (90 < d.toNat ∧ d.toNat < 97) ∨ 122 < d.toNat) :
    (pyLower l).contains d = l.contains d := by
  induction l with
  | nil => rfl
  | cons c t ih =>
    show (pyLowerChar c :: pyLower t).contains d = _
    rw [List.contains_cons, List.contains_cons, ih]
    congr 1
    by_cases h : c = d
    · subst h
      rw [(pyLowerChar_eq_iff hd).mpr rfl]
    · have h2 : ¬ pyLowerChar c = d := fun he => h ((pyLowerChar_eq_iff hd).mp he)
      have e1 : (d == pyLowerChar c) = false :=
        beq_eq_false_iff_ne.mpr (fun he => h2 he.symm)
      have e2 : (d == c) = false := beq_eq_false_iff_ne.mpr (fun he => h he.symm)
      rw [e1, e2]

/-! ### The `urlsplit`/`urlunsplit` round trip -/

/-- A present separator makes `splitOnFirst` succeed. -/
theorem splitOnFirst_isSome_of_mem {sep : Char} {l : List Char} (h : sep ∈ l) :
    (splitOnFirst sep l).isSome = true := by
  induction l with
  | nil => exact absurd h (List.not_mem_nil _)
  | cons c t ih =>
    unfold splitOnFirst
    by_cases hc : c = sep
    · rw [if_pos hc]
      rfl
    · rw [if_neg hc]
      have ht : sep ∈ t := by
        rcases List.mem_cons.mp h with he | hm
        · exact absurd he.symm hc
        · exact hm
      cases hsp : splitOnFirst sep t with
      | none =>
        have := ih ht
        rw [hsp] at this
        simp at this
      | some ab =>
        obtain ⟨a, b⟩ := ab
        rfl

/-- Either the separator is absent (identity split), or `splitOnce`
decomposes at the first occurrence. -/
theorem splitOnce_cases (sep : Char) (r : List Char) :
    ((splitOnce sep r).fst = r ∧ (splitOnce sep r).snd = [] ∧ sep ∉ r)
    ∨ (r = (splitOnce sep r).fst ++ sep :: (splitOnce sep r).snd
        ∧ sep ∉ (splitOnce sep r).fst) := by
  unfold splitOnce
  cases hsp : splitOnFirst sep r with
  | none =>
    left
    refine ⟨rfl, rfl, fun hm => ?_⟩
    have := splitOnFirst_isSome_of_mem hm
    rw [hsp] at this
    simp at this
  | some ab =>
    obtain ⟨a, b⟩ := ab
    right
    have h := splitOnFirst_some_decomp hsp
    exact ⟨h.1, h.2⟩

/-- When the separator is absent, `splitOnce` is the identity split. -/
theorem splitOnce_of_not_mem {sep : Char} {r : List Char} (h : sep ∉ r) :
    splitOnce sep r = (r, []) := by
  unfold splitOnce
  rw [splitOnFirst_eq_none h]

/-- `splitOnce` at an explicit first occurrence. -/
theorem splitOnce_append {sep : Char} {a b : List Char} (h : sep ∉ a) :
    splitOnce sep (a ++ sep :: b) = (a, b) := by
  unfold splitOnce
  rw [splitOnFirst_append h]

/-- `take` recovers an appended prefix. -/
theorem take_length_append (a b : List Char) : (a ++ b).take a.length = a := by
  induction a with
  | nil => rfl
  | cons x xs ih => simp [ih]

/-- `listStartsWith` holds on an explicit prefix. -/
theorem listStartsWith_append (pre b : List Char) :
    listStartsWith pre (pre ++ b) = true := by
  unfold listStartsWith
  rw [take_length_append]
  simp

/-- The scheme-prefixing step always yields `http://…` or `https://…`,
and yields `https` whenever the (stripped) input did not already start
with `http://` or `https://`. -/
theorem addScheme_form (u : List Char) :
    ∃ s v, addScheme u = s ++ ':' :: '/' :: '/' :: v
      ∧ (s = "http".data ∨ s = "https".data)
      ∧ ((listStartsWith "http://".data u = false
          ∧ listStartsWith "https://".data u = false) → s = "https".data) := by
  unfold addScheme
  by_cases h1 : listStartsWith "//".data u = true
  · rw [if_pos h1]
    refine ⟨"https".data, u.drop 2, ?_, Or.inr rfl, fun _ => rfl⟩
    conv_lhs => rw [listStartsWith_decomp h1]
    rfl
  · rw [if_neg h1]
    by_cases h2 : listStartsWith "http://".data u = true
        ∨ listStartsWith "https://".data u = true
    · rw [if_pos h2]
      rcases h2 with h2 | h2
      · refine ⟨"http".data, u.drop 7, ?_, Or.inl rfl, ?_⟩
        · conv_lhs => rw [listStartsWith_decomp h2]
          rfl
        · intro hf
          rw [hf.1] at h2
          exact absurd h2 (by decide)
      · refine ⟨"https".data, u.drop 8, ?_, Or.inr rfl, fun _ => rfl⟩
        conv_lhs => rw [listStartsWith_decomp h2]
        rfl
    · rw [if_neg h2]
      exact ⟨"https".data, u, rfl, Or.inr rfl, fun _ => rfl⟩

/-- `urlsplit` on a URL already carrying an `http`/`https` scheme and the
authority marker: the leading strip is a no-op, the scheme is recognized,
and the remainder goes to `splitAfterScheme` (with the unsafe characters
removed). -/
theorem urlsplit_http_form (s : List Char) (v : List Char)
    (hS : s = "http".data ∨ s = "https".data) :
    urlsplit (s ++ ':' :: '/' :: '/' :: v)
      = splitAfterScheme s ('/' :: '/' :: removeUnsafe v) := by
  rcases hS with h | h <;> subst h <;> rfl

/-- `splitAfterScheme` on an authority-marked remainder, fully
unfolded. -/
theorem splitAfterScheme_cc (s w : List Char) :
    splitAfterScheme s ('/' :: '/' :: w)
      = if bracketMismatch (w.takeWhile (fun c => ¬ netlocDelim c))
        then .error "Invalid IPv6 URL"
        else
          .ok ⟨s, w.takeWhile (fun c => ¬ netlocDelim c),
            (splitOnce '?'
              (splitOnce '#' (w.dropWhile (fun c => ¬ netlocDelim c))).fst).fst,
            (splitOnce '?'
              (splitOnce '#' (w.dropWhile (fun c => ¬ netlocDelim c))).fst).snd,
            (splitOnce '#' (w.dropWhile (fun c => ¬ netlocDelim c))).snd⟩ := rfl

/-- The string `urlunsplit` produces for an `http`/`https` split whose
path starts with `/`: the authority marker is always reinstated (when the
netloc is empty this needs the `uses_netloc` membership and a path not
starting `//`). -/
theorem urlunsplit_http (s n pp q : List Char)
    (hS : s = "http".data ∨ s = "https".data)
    (hpphead : pp.headD ' ' = '/')
    (hcond : n ≠ [] ∨ pp.take 2 ≠ ['/', '/']) :
    urlunsplit ⟨s, n, pp, q, []⟩
      = s ++ ':' :: '/' :: '/' ::
          (n ++ pp ++ (if q.isEmpty then [] else '?' :: q)) := by
  unfold urlunsplit
  dsimp only
  have hc1 : ¬ (n.isEmpty = true)
      ∨ (¬ (s.isEmpty = true) ∧ uses_netloc.contains (String.mk s) = true
          ∧ pp.take 2 ≠ ['/', '/']) := by
    rcases hcond with h | h
    · left
      intro he
      exact h (List.isEmpty_iff.mp he)
    · right
      refine ⟨?_, ?_, h⟩
      · rcases hS with hs | hs <;> subst hs <;> decide
      · rcases hS with hs | hs <;> subst hs <;> decide
  rw [if_pos hc1]
  have hc2 : ¬ (¬ (pp.isEmpty = true) ∧ pp.headD ' ' ≠ '/') := by
    intro hcon
    exact hcon.2 hpphead
  rw [if_neg hc2]
  have hc3 : ¬ (s.isEmpty = true) := by
    rcases hS with hs | hs <;> subst hs <;> decide
  rw [if_pos hc3,
    if_neg (show ¬ ¬ (([] : List Char).isEmpty = true) from fun hc => hc rfl)]
  by_cases hq : q.isEmpty = true
  · rw [if_neg (show ¬ ¬ (q.isEmpty = true) from fun hc => hc hq), if_pos hq]
    have hqe : q = [] := List.isEmpty_iff.mp hq
    subst hqe
    simp
  · rw [if_pos hq, if_neg hq]
    simp [List.append_assoc]

/-- The heart of the idempotence argument: re-splitting the URL that
`_norm_url` rebuilds recovers exactly its components, provided the
components came from a split of a scheme-prefixed URL (no delimiters in
the netloc, no `#`/`?` in the path, no `#` in the query, no unsafe
characters anywhere) and the authority marker is unambiguous (non-empty
netloc, or a path not starting `//`). -/
theorem norm_roundtrip (s n path q : List Char)
    (hS : s = "http".data ∨ s = "https".data)
    (hn_nd : ∀ c ∈ n, netlocDelim c = false)
    (hn_safe : ∀ c ∈ n, unsafeChar c = false)
    (hpath : path = [] ∨ path.headD ' ' = '/')
    (hp_safe : ∀ c ∈ path, unsafeChar c = false)
    (hq_safe : ∀ c ∈ q, unsafeChar c = false)
    (hp_h : '#' ∉ path) (hp_q : '?' ∉ path) (hq_h : '#' ∉ q)
    (hbr : bracketMismatch n = false)
    (hcond : n ≠ [] ∨ (if path.isEmpty then ['/'] else path).take 2 ≠ ['/', '/']) :
    urlsplit (urlunsplit
        ⟨s, pyLower n, (if path.isEmpty then ['/'] else path), q, []⟩)
      = .ok ⟨s, pyLower n, (if path.isEmpty then ['/'] else path), q, []⟩ := by
  set pp := if path.isEmpty then ['/'] else path with hppdef
  set n' := pyLower n with hnLowDef
  have hpphead : pp.headD ' ' = '/' := by
    rw [hppdef]
    by_cases hp0 : path.isEmpty = true
    · rw [if_pos hp0]
      rfl
    · rw [if_neg hp0]
      rcases hpath with h | h
      · rw [h] at hp0
        exact absurd rfl hp0
      · exact h
  have hppne : pp ≠ [] := by
    intro h0
    rw [h0] at hpphead
    exact absurd hpphead (by decide)
  obtain ⟨pptail, hpptail⟩ : ∃ t, pp = '/' :: t := by
    cases hpp0 : pp with
    | nil => exact absurd hpp0 hppne
    | cons c t =>
      refine ⟨t, ?_⟩
      rw [hpp0] at hpphead
      have : c = '/' := hpphead
      rw [this]
  have hpp_safe : ∀ c ∈ pp, unsafeChar c = false := by
    rw [hppdef]
    by_cases hp0 : path.isEmpty = true
    · rw [if_pos hp0]
      intro c hc
      have : c = '/' := List.mem_singleton.mp hc
      rw [this]
      rfl
    · rw [if_neg hp0]
      exact hp_safe
  have hpp_h : '#' ∉ pp := by
    rw [hppdef]
    by_cases hp0 : path.isEmpty = true
    · rw [if_pos hp0]
      intro hc
      have : '#' = '/' := List.mem_singleton.mp hc
      exact absurd this (by decide)
    · rw [if_neg hp0]
      exact hp_h
  have hpp_q : '?' ∉ pp := by
    rw [hppdef]
    by_cases hp0 : path.isEmpty = true
    · rw [if_pos hp0]
      intro hc
      have : '?' = '/' := List.mem_singleton.mp hc
      exact absurd this (by decide)
    · rw [if_neg hp0]
      exact hp_q
  have hn'_mem : ∀ c ∈ n', ∃ c₀, c₀ ∈ n ∧ c = pyLowerChar c₀ := by
    intro c hc
    rw [hnLowDef] at hc
    obtain ⟨c₀, hc₀, he⟩ := List.mem_map.mp hc
    exact ⟨c₀, hc₀, he.symm⟩
  have hn'_nd : ∀ c ∈ n', netlocDelim c = false := by
    intro c hc
    obtain ⟨c₀, h0, rfl⟩ := hn'_mem c hc
    rw [netlocDelim_pyLowerChar]
    exact hn_nd c₀ h0
  have hn'_safe : ∀ c ∈ n', unsafeChar c = false := by
    intro c hc
    obtain ⟨c₀, h0, rfl⟩ := hn'_mem c hc
    rw [unsafeChar_pyLowerChar]
    exact hn_safe c₀ h0
  have hn'_nil : n' = [] → n = [] := by
    intro h0
    rw [hnLowDef] at h0
    exact List.map_eq_nil_iff.mp h0
  have hcond' : n' ≠ [] ∨ pp.take 2 ≠ ['/', '/'] := by
    rcases hcond with h | h
    · exact Or.inl (fun h0 => h (hn'_nil h0))
    · exact Or.inr h
  rw [urlunsplit_http s n' pp q hS hpphead hcond']
  set Q := (if q.isEmpty then ([] : List Char) else '?' :: q) with hQdef
  rw [urlsplit_http_form s (n' ++ pp ++ Q) hS]
  have hQsafe : ∀ c ∈ Q, unsafeChar c = false := by
    rw [hQdef]
    by_cases hq0 : q.isEmpty = true
    · rw [if_pos hq0]
      intro c hc
      exact absurd hc (List.not_mem_nil c)
    · rw [if_neg hq0]
      intro c hc
      rcases List.mem_cons.mp hc with he | hc'
      · rw [he]
        rfl
      · exact hq_safe c hc'
  have hall : ∀ c ∈ n' ++ pp ++ Q, unsafeChar c = false := by
    intro c hc
    rcases List.mem_append.mp hc with hc1 | hcQ
    · rcases List.mem_append.mp hc1 with hcn | hcp
      · exact hn'_safe c hcn
      · exact hpp_safe c hcp
    · exact hQsafe c hcQ
  have hru : removeUnsafe (n' ++ pp ++ Q) = n' ++ pp ++ Q := by
    unfold removeUnsafe
    apply List.filter_eq_self.mpr
    intro a ha
    simp [hall a ha]
  rw [hru, splitAfterScheme_cc]
  have hassoc : n' ++ pp ++ Q = n' ++ '/' :: (pptail ++ Q) := by
    rw [hpptail]
    simp [List.append_assoc]
  have hpred : ∀ x ∈ n', decide (¬ netlocDelim x = true) = true := by
    intro x hx
    simp [hn'_nd x hx]
  have hpredslash : decide (¬ netlocDelim '/' = true) = false := by decide
  have htw : (n' ++ pp ++ Q).takeWhile (fun c => ¬ netlocDelim c) = n' := by
    rw [hassoc]
    exact takeWhile_append_cons hpred hpredslash
  have hdw : (n' ++ pp ++ Q).dropWhile (fun c => ¬ netlocDelim c)
      = '/' :: (pptail ++ Q) := by
    rw [hassoc]
    exact dropWhile_append_cons hpred hpredslash
  rw [htw, hdw]
  have hbr' : bracketMismatch n' = false := by
    unfold bracketMismatch at hbr ⊢
    rw [hnLowDef]
    show (decide _) = false
    rw [contains_pyLower (by decide), contains_pyLower (by decide)]
    exact hbr
  rw [if_neg (by simp [hbr'])]
  have hnofrag : '#' ∉ '/' :: (pptail ++ Q) := by
    intro hm
    rcases List.mem_cons.mp hm with he | hm'
    · exact absurd he (by decide)
    · rcases List.mem_append.mp hm' with h1 | h2
      · exact hpp_h (by rw [hpptail]; exact List.mem_cons_of_mem _ h1)
      · rw [hQdef] at h2
        by_cases hq0 : q.isEmpty = true
        · rw [if_pos hq0] at h2
          exact absurd h2 (List.not_mem_nil _)
        · rw [if_neg hq0] at h2
          rcases List.mem_cons.mp h2 with he | hm''
          · exact absurd he (by decide)
          · exact hq_h hm''
  rw [splitOnce_of_not_mem hnofrag]
  dsimp only
  by_cases hq0 : q.isEmpty = true
  · have hQnil : Q = [] := by rw [hQdef, if_pos hq0]
    have hqnil : q = [] := List.isEmpty_iff.mp hq0
    have hnoq : '?' ∉ '/' :: (pptail ++ Q) := by
      intro hm
      rcases List.mem_cons.mp hm with he | hm'
      · exact absurd he (by decide)
      · rcases List.mem_append.mp hm' with h1 | h2
        · exact hpp_q (by rw [hpptail]; exact List.mem_cons_of_mem _ h1)
        · rw [hQnil] at h2
          exact absurd h2 (List.not_mem_nil _)
    rw [splitOnce_of_not_mem hnoq]
    dsimp only
    rw [hQnil, List.append_nil, ← hpptail, hqnil]
  · have hQcons : Q = '?' :: q := by rw [hQdef, if_neg hq0]
    have he : '/' :: (pptail ++ Q) = pp ++ '?' :: q := by
      rw [hQcons, hpptail]
      rfl
    rw [he, splitOnce_append hpp_q]

/-- The head of a non-empty list is a member. -/
theorem headD_mem {l : List Char} {d : Char} (h : l ≠ []) : l.headD d ∈ l := by
  cases l with
  | nil => exact absurd rfl h
  | cons c t => exact List.mem_cons_self _ _

/-- The prefix produced by `splitOnce` lives inside the input. -/
theorem mem_of_splitOnce_fst {sep : Char} {r : List Char} {c : Char}
    (h : c ∈ (splitOnce sep r).fst) : c ∈ r := by
  rcases splitOnce_cases sep r with ⟨he, _, _⟩ | ⟨hd, _⟩
  · rw [he] at h
    exact h
  · rw [hd]
    exact List.mem_append_left _ h

/-- The remainder produced by `splitOnce` lives inside the input. -/
theorem mem_of_splitOnce_snd {sep : Char} {r : List Char} {c : Char}
    (h : c ∈ (splitOnce sep r).snd) : c ∈ r := by
  rcases splitOnce_cases sep r with ⟨_, he, _⟩ | ⟨hd, _⟩
  · rw [he] at h
    exact absurd h (List.not_mem_nil c)
  · rw [hd]
    exact List.mem_append_right _ (List.mem_cons_of_mem _ h)

/-- The prefix produced by `splitOnce` is free of the separator. -/
theorem not_mem_splitOnce_fst (sep : Char) (r : List Char) :
    sep ∉ (splitOnce sep r).fst := by
  rcases splitOnce_cases sep r with ⟨he, _, hn⟩ | ⟨_, hn⟩
  · rw [he]
    exact hn
  · exact hn

/-- A non-empty `splitOnce` prefix starts where the input starts. -/
theorem splitOnce_fst_headD (sep : Char) (r : List Char) (d : Char) :
    (splitOnce sep r).fst = [] ∨ (splitOnce sep r).fst.headD d = r.headD d := by
  rcases splitOnce_cases sep r with ⟨he, _, _⟩ | ⟨hd, _⟩
  · right
    rw [he]
  · by_cases h0 : (splitOnce sep r).fst = []
    · exact Or.inl h0
    · right
      conv_rhs => rw [hd]
      exact (headD_append_of_ne_nil h0).symm

/-- What a successful `splitAfterScheme` on an authority-marked
remainder guarantees about its components. -/
theorem splitAfterScheme_facts {s w : List Char} {p : SplitResult}
    (h : splitAfterScheme s ('/' :: '/' :: w) = .ok p) :
    p.scheme = s
    ∧ p.netloc = w.takeWhile (fun c => ¬ netlocDelim c)
    ∧ bracketMismatch p.netloc = false
    ∧ (∀ c ∈ p.path, c ∈ w)
    ∧ (∀ c ∈ p.query, c ∈ w)
    ∧ '#' ∉ p.path
    ∧ '?' ∉ p.path
    ∧ '#' ∉ p.query
    ∧ (p.path = [] ∨ p.path.headD ' ' = '/') := by
  rw [splitAfterScheme_cc] at h
  by_cases hbr : bracketMismatch (w.takeWhile (fun c => ¬ netlocDelim c)) = true
  · rw [if_pos hbr] at h
    exact absurd h (by simp)
  · rw [if_neg hbr] at h
    have hp : p = ⟨s, w.takeWhile (fun c => ¬ netlocDelim c),
        (splitOnce '?'
          (splitOnce '#' (w.dropWhile (fun c => ¬ netlocDelim c))).fst).fst,
        (splitOnce '?'
          (splitOnce '#' (w.dropWhile (fun c => ¬ netlocDelim c))).fst).snd,
        (splitOnce '#' (w.dropWhile (fun c => ¬ netlocDelim c))).snd⟩ :=
      (Except.ok.inj h).symm
    set r := w.dropWhile (fun c => ¬ netlocDelim c) with hrdef
    have hrsub : ∀ c ∈ r, c ∈ w := fun c hc =>
      (List.dropWhile_sublist _).subset hc
    have hFsub : ∀ c ∈ (splitOnce '#' r).fst, c ∈ w := fun c hc =>
      hrsub c (mem_of_splitOnce_fst hc)
    have hpath_mem : ∀ c ∈ p.path, c ∈ w := by
      rw [hp]
      intro c hc
      exact hFsub c (mem_of_splitOnce_fst hc)
    have hquery_mem : ∀ c ∈ p.query, c ∈ w := by
      rw [hp]
      intro c hc
      exact hFsub c (mem_of_splitOnce_snd hc)
    have hpath_nofrag : '#' ∉ p.path := by
      rw [hp]
      intro hc
      exact not_mem_splitOnce_fst '#' r (mem_of_splitOnce_fst hc)
    have hpath_noq : '?' ∉ p.path := by
      rw [hp]
      exact not_mem_splitOnce_fst '?' _
    have hquery_nofrag : '#' ∉ p.query := by
      rw [hp]
      intro hc
      exact not_mem_splitOnce_fst '#' r (mem_of_splitOnce_snd hc)
    have hpath_head : p.path = [] ∨ p.path.headD ' ' = '/' := by
      by_cases h0 : p.path = []
      · exact Or.inl h0
      · right
        have hF0 : (splitOnce '#' r).fst ≠ [] := by
          intro he
          rcases splitOnce_fst_headD '?' (splitOnce '#' r).fst ' ' with h1 | h1
          · rw [hp] at h0
            exact h0 h1
          · rw [hp] at h0
            -- p.path nonempty and its head is the head of F.fst = head of []
            rw [he] at h1
            -- h1 : path.headD ' ' = ' '
            have hm := headD_mem (l := (splitOnce '?' (splitOnce '#' r).fst).fst)
              (d := ' ') h0
            rw [he] at hm
            -- splitOnce '?' [] = ([], []): member of [] absurd
            rcases splitOnce_cases '?' ([] : List Char) with ⟨hx, _, _⟩ | ⟨hx, _⟩
            · rw [hx] at hm
              exact absurd hm (List.not_mem_nil _)
            · exact absurd hx.symm (by intro hcon; cases hcon)
        have hr0 : r ≠ [] := by
          intro he
          apply hF0
          rw [he]
          rfl
        have hrd : decide (¬ netlocDelim (r.headD ' ') = true) = false :=
          dropWhile_head_false hr0
        have hrdelim : netlocDelim (r.headD ' ') = true := by
          by_cases hx : netlocDelim (r.headD ' ') = true
          · exact hx
          · rw [decide_eq_false_iff_not] at hrd
            exact absurd hx (by intro hy; exact hrd hy)
        have hhead1 : p.path.headD ' ' = (splitOnce '#' r).fst.headD ' ' := by
          rcases splitOnce_fst_headD '?' (splitOnce '#' r).fst ' ' with h1 | h1
          · rw [hp] at h0
            exact absurd h1 h0
          · rw [hp]
            exact h1
        have hhead2 : (splitOnce '#' r).fst.headD ' ' = r.headD ' ' := by
          rcases splitOnce_fst_headD '#' r ' ' with h1 | h1
          · exact absurd h1 hF0
          · exact h1
        have hheadmem : p.path.headD ' ' ∈ p.path := headD_mem h0
        have hhd : netlocDelim (p.path.headD ' ') = true := by
          rw [hhead1, hhead2]
          exact hrdelim
        have := of_decide_eq_true hhd
        rcases this with h1 | h1 | h1
        · exact h1
        · rw [h1] at hheadmem
          exact absurd hheadmem hpath_noq
        · rw [h1] at hheadmem
          exact absurd hheadmem hpath_nofrag
    refine ⟨by rw [hp], by rw [hp], ?_, hpath_mem, hquery_mem, hpath_nofrag,
      hpath_noq, hquery_nofrag, hpath_head⟩
    rw [hp]
    exact Bool.eq_false_iff.mpr hbr

/-- `_norm_url` on a non-empty URL whose prefixed form splits
successfully. -/
theorem norm_url_eq {url : List Char} {p : SplitResult} (hne : url ≠ [])
    (hsplit : urlsplit (addScheme (pyStrip url)) = .ok p) :
    norm_url url = .ok (normOutput p) := by
  unfold norm_url
  rw [if_neg (fun h => hne (List.isEmpty_iff.mp h)), hsplit]
  rfl

/-- `addScheme` fixes URLs already of the `http(s)://` form. -/
theorem addScheme_fix {s : List Char} (hS : s = "http".data ∨ s = "https".data)
    (x : List Char) :
    addScheme (s ++ ':' :: '/' :: '/' :: x) = s ++ ':' :: '/' :: '/' :: x := by
  rcases hS with h | h <;> subst h <;> rfl

/-- **C9 counterexample** — `_norm_url` is not idempotent: dropping the
fragment of `"example.com/a #f"` exposes a trailing space, which the
second pass strips away, so normalizing the already-normalized URL
changes it. -/
theorem norm_url_not_idempotent :
    norm_url_s "example.com/a #f" = .ok "https://example.com/a "
    ∧ norm_url_s "https://example.com/a " = .ok "https://example.com/a"
    ∧ "https://example.com/a" ≠ "https://example.com/a " := by
  refine ⟨rfl, rfl, by decide⟩

/-- **C9 (amended)** — for every non-empty URL string whose scheme-prefixed
form splits (no mismatched IPv6 bracket), normalization returns
`urlunsplit(scheme, netloc.lower(), path or "/", query, "")`: re-splitting
the output shows the host lowercased, the fragment removed, an empty path
defaulted to `/` and the query preserved, and the output contains no `#`;
a `//`-prefixed or scheme-less input receives the `https` scheme.
Normalization is idempotent PROVIDED the output carries no trailing
whitespace (a cut fragment can expose one — see the counterexample) and
the authority marker is unambiguous (non-empty host, or a path not
starting `//`). -/
theorem norm_url_spec (url : List Char) (p : SplitResult)
    (hne : url ≠ [])
    (hsplit : urlsplit (addScheme (pyStrip url)) = .ok p)
    (hcond : p.netloc ≠ []
      ∨ (if p.path.isEmpty then ['/'] else p.path).take 2 ≠ ['/', '/'])
    (hws : pyStrip (normOutput p) = normOutput p) :
    norm_url url = .ok (normOutput p)
    ∧ urlsplit (normOutput p)
        = .ok ⟨p.scheme, pyLower p.netloc,
               (if p.path.isEmpty then ['/'] else p.path), p.query, []⟩
    ∧ norm_url (normOutput p) = .ok (normOutput p)
    ∧ '#' ∉ normOutput p
    ∧ (p.scheme = "http".data ∨ p.scheme = "https".data)
    ∧ ((listStartsWith "http://".data (pyStrip url) = false
        ∧ listStartsWith "https://".data (pyStrip url) = false) →
          p.scheme = "https".data) := by
  have hout1 := norm_url_eq hne hsplit
  obtain ⟨s, v, heq, hS, hfb⟩ := addScheme_form (pyStrip url)
  rw [heq, urlsplit_http_form s v hS] at hsplit
  obtain ⟨hsc, hnl, hbr, hpm, hqm, hph, hpq, hqh, hphead⟩ :=
    splitAfterScheme_facts hsplit
  have hS' : p.scheme = "http".data ∨ p.scheme = "https".data := by
    rw [hsc]
    exact hS
  have hwsafe : ∀ c ∈ removeUnsafe v, unsafeChar c = false := by
    intro c hc
    unfold removeUnsafe at hc
    have := List.of_mem_filter hc
    simpa using this
  have hn_nd : ∀ c ∈ p.netloc, netlocDelim c = false := by
    intro c hc
    rw [hnl] at hc
    have := mem_takeWhile_pred hc
    simpa using this
  have hn_safe : ∀ c ∈ p.netloc, unsafeChar c = false := by
    intro c hc
    rw [hnl] at hc
    exact hwsafe c ((List.takeWhile_sublist _).subset hc)
  have hp_safe : ∀ c ∈ p.path, unsafeChar c = false :=
    fun c hc => hwsafe c (hpm c hc)
  have hq_safe : ∀ c ∈ p.query, unsafeChar c = false :=
    fun c hc => hwsafe c (hqm c hc)
  have hrt := norm_roundtrip p.scheme p.netloc p.path p.query hS' hn_nd hn_safe
    hphead hp_safe hq_safe hph hpq hqh hbr hcond
  have hout2 : urlsplit (normOutput p)
      = .ok ⟨p.scheme, pyLower p.netloc,
             (if p.path.isEmpty then ['/'] else p.path), p.query, []⟩ := hrt
  have hpphead : (if p.path.isEmpty then ['/'] else p.path).headD ' ' = '/' := by
    by_cases hp0 : p.path.isEmpty = true
    · rw [if_pos hp0]
      rfl
    · rw [if_neg hp0]
      rcases hphead with h | h
      · rw [h] at hp0
        exact absurd rfl hp0
      · exact h
  have hppne : (if p.path.isEmpty then ['/'] else p.path) ≠ [] := by
    intro h0
    rw [h0] at hpphead
    exact absurd hpphead (by decide)
  have hcond' : pyLower p.netloc ≠ []
      ∨ (if p.path.isEmpty then ['/'] else p.path).take 2 ≠ ['/', '/'] := by
    rcases hcond with h | h
    · exact Or.inl (fun h0 => h (List.map_eq_nil_iff.mp h0))
    · exact Or.inr h
  have hshape : normOutput p
      = p.scheme ++ ':' :: '/' :: '/' ::
          (pyLower p.netloc ++ (if p.path.isEmpty then ['/'] else p.path)
            ++ (if p.query.isEmpty then [] else '?' :: p.query)) := by
    unfold normOutput
    exact urlunsplit_http p.scheme (pyLower p.netloc) _ p.query hS' hpphead hcond'
  have houtne : normOutput p ≠ [] := by
    rw [hshape]
    rcases hS' with h | h <;> rw [h] <;> simp
  have hnorm2 : norm_url (normOutput p) = .ok (normOutput p) := by
    unfold norm_url
    rw [if_neg (fun h => houtne (List.isEmpty_iff.mp h)), hws]
    conv_lhs => rw [hshape]
    rw [addScheme_fix hS', ← hshape, hout2]
    show Except.ok (normOutput _) = _
    unfold normOutput
    congr 1
    rw [pyLower_idem]
    rw [if_neg (fun h0 => hppne (List.isEmpty_iff.mp h0))]
  have hnofragout : '#' ∉ normOutput p := by
    rw [hshape]
    intro hm
    rcases List.mem_append.mp hm with hm1 | hm2
    · rcases hS' with h | h <;> rw [h] at hm1 <;> exact absurd hm1 (by decide)
    · rcases List.mem_cons.mp hm2 with he | hm3
      · exact absurd he (by decide)
      · rcases List.mem_cons.mp hm3 with he | hm4
        · exact absurd he (by decide)
        · rcases List.mem_cons.mp hm4 with he | hm5
          · exact absurd he (by decide)
          · rcases List.mem_append.mp hm5 with hm6 | hm7
            · rcases List.mem_append.mp hm6 with hm8 | hm9
              · obtain ⟨c₀, hc₀, hce⟩ := List.mem_map.mp hm8
                have : c₀ = '#' := (pyLowerChar_eq_iff (by decide)).mp hce
                rw [this] at hc₀
                have := hn_nd '#' hc₀
                exact absurd this (by decide)
              · by_cases hp0 : p.path.isEmpty = true
                · rw [if_pos hp0] at hm9
                  have : '#' = '/' := List.mem_singleton.mp hm9
                  exact absurd this (by decide)
                · rw [if_neg hp0] at hm9
                  exact hph hm9
            · by_cases hq0 : p.query.isEmpty = true
              · rw [if_pos hq0] at hm7
                exact absurd hm7 (List.not_mem_nil _)
              · rw [if_neg hq0] at hm7
                rcases List.mem_cons.mp hm7 with he | hm8
                · exact absurd he (by decide)
                · exact hqh hm8
  refine ⟨hout1, hout2, hnorm2, hnofragout, hS', ?_⟩
  intro hf
  rw [hsc]
  exact hfb hf

/-- Witness for C9's amended theorem at a concrete URL (mixed-case host,
fragment, query). -/
theorem norm_url_spec_witness :
    norm_url "Example.COM/Path?q=1#frag".data
      = .ok (normOutput ⟨"https".data, "Example.COM".data, "/Path".data,
          "q=1".data, "frag".data⟩)
    ∧ norm_url (normOutput ⟨"https".data, "Example.COM".data, "/Path".data,
          "q=1".data, "frag".data⟩)
      = .ok (normOutput ⟨"https".data, "Example.COM".data, "/Path".data,
          "q=1".data, "frag".data⟩) := by
  have h := norm_url_spec "Example.COM/Path?q=1#frag".data
    ⟨"https".data, "Example.COM".data, "/Path".data, "q=1".data, "frag".data⟩
    (by decide) (by rfl) (Or.inl (by decide)) (by rfl)
  exact ⟨h.1, h.2.2.1⟩

/-! ### The scan orchestrator: report shape and the AMP fallback -/

/-- An `if` whose condition is the false boolean equation. -/
theorem dGet_dSet (d : List (String × JVal)) (k1 : String) (v : JVal)
    (k : String) :
    dGet (dSet d k1 v) k = if k1 = k then some v else dGet d k := by
  induction d with
  | nil =>
    by_cases h : k1 = k <;> simp [dSet, dGet, h]
  | cons a t ih =>
    obtain ⟨ka, va⟩ := a
    by_cases h1 : ka = k1
    · subst h1
      by_cases h2 : ka = k <;> simp [dSet, dGet, h2, ih]
    · by_cases h2 : ka = k
      · subst h2
        have h3 : ¬ k1 = ka := fun he => h1 he.symm
        simp [dSet, dGet, h1, h3]
      · simp [dSet, dGet, h1, h2, ih]

/-- Updating a key already present keeps membership unchanged for every
key. -/
theorem dMem_dSet_present {d : List (String × JVal)} {k1 : String}
    {w : JVal} (hp : dGet d k1 = some w) (v : JVal) (k : String) :
    dMem (dSet d k1 v) k = dMem d k := by
  unfold dMem
  rw [dGet_dSet]
  by_cases h : k1 = k
  · subst h
    rw [if_pos rfl, hp]
    rfl
  · rw [if_neg h]

/-- The nested `performance` update never changes the key set. -/
theorem dMem_dSetIn (d : List (String × JVal)) (k1 k2 : String) (v : JVal)
    (k : String) : dMem (dSetIn d k1 k2 v) k = dMem d k := by
  unfold dSetIn
  cases hg : dGet d k1 with
  | none => rfl
  | some w =>
    cases w with
    | dict m => exact dMem_dSet_present hg _ k
    | null => rfl
    | bool b => rfl
    | int n => rfl
    | str s => rfl
    | list xs => rfl

/-- The PSI score injection never changes the key set. -/
theorem dMem_psiApply (x : Option (List (String × JVal)))
    (d : List (String × JVal)) (k : String) :
    dMem (psiApply x d) k = dMem d k := by
  unfold psiApply
  cases x with
  | none => rfl
  | some psd =>
    dsimp only
    by_cases h : jTruthy (dGetD psd "enabled" JVal.null) = true
    · rw [if_pos h, dMem_dSetIn, dMem_dSetIn]
    · rw [if_neg h]

/-- Setting any key preserves the presence of every present key. -/
theorem dMem_dSet_mono {d : List (String × JVal)} {k : String}
    (h : dMem d k = true) (k1 : String) (v : JVal) :
    dMem (dSet d k1 v) k = true := by
  unfold dMem at *
  rw [dGet_dSet]
  by_cases h1 : k1 = k
  · rw [if_pos h1]; rfl
  · rw [if_neg h1]; exact h

/-- A key just set is present. -/
theorem dMem_dSet_self (d : List (String × JVal)) (k : String) (v : JVal) :
    dMem (dSet d k v) k = true := by
  unfold dMem
  rw [dGet_dSet, if_pos rfl]
  rfl

/-- `setdefault(...).append` preserves the presence of every present key. -/
theorem dMem_setdefault_mono {d : List (String × JVal)} {k : String}
    (h : dMem d k = true) (k1 : String) (v : JVal) :
    dMem (dSetdefaultAppend d k1 v) k = true := by
  unfold dSetdefaultAppend
  cases hg : dGet d k1 with
  | none => exact dMem_dSet_mono h k1 _
  | some w =>
    cases w with
    | list xs => exact dMem_dSet_mono h k1 _
    | null => exact h
    | bool b => exact h
    | int n => exact h
    | str s => exact h
    | dict m => exact h

/-- The copy loop of the AMP fallback preserves key presence. -/
theorem dMem_foldl_copy_mono (src : List (String × JVal)) (ks : List String) :
    ∀ d k, dMem d k = true →
      dMem (ks.foldl (fun acc kk =>
        match dGet src kk with
        | some v => dSet acc kk v
        | none => acc) d) k = true := by
  induction ks with
  | nil => intro d k h; exact h
  | cons a t ih =>
    intro d k h
    rw [List.foldl_cons]
    apply ih
    cases hg : dGet src a with
    | none => exact h
    | some v => exact dMem_dSet_mono h a v

/-- `copyContent` preserves the presence of every present key. -/
theorem dMem_copyContent_mono {d : List (String × JVal)} {k : String}
    (h : dMem d k = true) (src : List (String × JVal)) :
    dMem (copyContent src d) k = true :=
  dMem_foldl_copy_mono src contentKeys d k h

/-- The copy loop leaves keys outside the copied list untouched. -/
theorem dGet_foldl_copy_ne (src : List (String × JVal)) (ks : List String) :
    ∀ d k, k ∉ ks →
      dGet (ks.foldl (fun acc kk =>
        match dGet src kk with
        | some w => dSet acc kk w
        | none => acc) d) k = dGet d k := by
  induction ks with
  | nil => intro d k _; rfl
  | cons a t ih =>
    intro d k hk
    have h1 : k ≠ a := fun he => hk (he ▸ List.mem_cons_self a t)
    have h2 : k ∉ t := fun hm => hk (List.mem_cons_of_mem a hm)
    rw [List.foldl_cons, ih _ k h2]
    cases hg : dGet src a with
    | none => rfl
    | some v =>
      show dGet (dSet d a v) k = dGet d k
      rw [dGet_dSet, if_neg (fun he => h1 he.symm)]

/-- `copyContent` leaves every non-content key untouched. -/
theorem dGet_copyContent_ne {k : String} (h : k ∉ contentKeys)
    (src d : List (String × JVal)) :
    dGet (copyContent src d) k = dGet d k :=
  dGet_foldl_copy_ne src contentKeys d k h

/-- The copy loop installs the source value at every copied key the
source carries (the copied key list being duplicate-free). -/
theorem dGet_foldl_copy_of_mem (src : List (String × JVal)) :
    ∀ (ks : List String) (d : List (String × JVal)) (k : String),
      ks.Nodup → k ∈ ks → (dGet src k).isSome = true →
      dGet (ks.foldl (fun acc kk =>
        match dGet src kk with
        | some w => dSet acc kk w
        | none => acc) d) k = dGet src k := by
  intro ks
  induction ks with
  | nil => intro d k _ hk _; exact absurd hk (List.not_mem_nil k)
  | cons a t ih =>
    intro d k hnd hk hs
    obtain ⟨hat, hndt⟩ := List.nodup_cons.mp hnd
    rw [List.foldl_cons]
    rcases List.mem_cons.mp hk with he | hm
    · subst he
      rw [dGet_foldl_copy_ne src t _ k hat]
      cases hg : dGet src k with
      | none => rw [hg] at hs; exact Bool.noConfusion hs
      | some v =>
        show dGet (dSet d k v) k = some v
        rw [dGet_dSet, if_pos rfl]
    · exact ih _ k hndt hm hs

/-- `setdefault(...).append` on one key leaves every other key untouched. -/
theorem dGet_setdefault_ne {k1 k : String} (h : k1 ≠ k)
    (d : List (String × JVal)) (v : JVal) :
    dGet (dSetdefaultAppend d k1 v) k = dGet d k := by
  unfold dSetdefaultAppend
  cases hg : dGet d k1 with
  | none =>
    show dGet (dSet d k1 (.list [v])) k = dGet d k
    rw [dGet_dSet, if_neg h]
  | some w =>
    cases w with
    | list xs =>
      show dGet (dSet d k1 (.list (xs ++ [v]))) k = dGet d k
      rw [dGet_dSet, if_neg h]
    | null => rfl
    | bool b => rfl
    | int n => rfl
    | str s => rfl
    | dict m => rfl

/-- `setdefault(k, []).append(v)` on an absent key creates `[v]`. -/
theorem dGet_setdefault_none {d : List (String × JVal)} {k1 : String}
    (h : dGet d k1 = none) (v : JVal) :
    dGet (dSetdefaultAppend d k1 v) k1 = some (.list [v]) := by
  unfold dSetdefaultAppend
  rw [h]
  show dGet (dSet d k1 (.list [v])) k1 = some (.list [v])
  rw [dGet_dSet, if_pos rfl]

/-- The report dict after the five initial assembly steps: `checks`. -/
theorem dGet_chain_checks (url : String) (e : Extracted) (a b c p : JVal) :
    dGet (dSet (dSet (dSet (dSet (parse_html url e) "status_code" a)
      "content_length" b) "load_time_ms" c) "performance" p) "checks"
      = some (.dict e.checks) := rfl

/-- The report dict after the six initial assembly steps: `amp_url`. -/
theorem dGet_chain_amp (url : String) (e : Extracted) (a b c p q : JVal) :
    dGet (dSet (dSet (dSet (dSet (dSet (parse_html url e) "status_code" a)
      "content_length" b) "load_time_ms" c) "performance" p) "checks" q)
      "amp_url" = some e.amp_url := rfl

/-- The assembled report before the auxiliary sections: `url`. -/
theorem chain_url (url : String) (e : Extracted) (a b c p q : JVal) :
    dGet (dSet (dSet (dSet (dSet (dSet (parse_html url e) "status_code" a)
      "content_length" b) "load_time_ms" c) "performance" p) "checks" q)
      "url" = some (.str url) := rfl

/-- The assembled report before the auxiliary sections: `status_code`. -/
theorem chain_status (url : String) (e : Extracted) (a b c p q : JVal) :
    dGet (dSet (dSet (dSet (dSet (dSet (parse_html url e) "status_code" a)
      "content_length" b) "load_time_ms" c) "performance" p) "checks" q)
      "status_code" = some a := rfl

/-- The assembled report before the auxiliary sections: `content_length`. -/
theorem chain_cl (url : String) (e : Extracted) (a b c p q : JVal) :
    dGet (dSet (dSet (dSet (dSet (dSet (parse_html url e) "status_code" a)
      "content_length" b) "load_time_ms" c) "performance" p) "checks" q)
      "content_length" = some b := rfl

/-- The assembled report before the auxiliary sections: `load_time_ms`. -/
theorem chain_lt (url : String) (e : Extracted) (a b c p q : JVal) :
    dGet (dSet (dSet (dSet (dSet (dSet (parse_html url e) "status_code" a)
      "content_length" b) "load_time_ms" c) "performance" p) "checks" q)
      "load_time_ms" = some c := rfl

/-- The assembled report before the auxiliary sections: `performance`. -/
theorem chain_perf (url : String) (e : Extracted) (a b c p q : JVal) :
    dGet (dSet (dSet (dSet (dSet (dSet (parse_html url e) "status_code" a)
      "content_length" b) "load_time_ms" c) "performance" p) "checks" q)
      "performance" = some p := rfl

/-- The assembled report carries no `notes` key yet. -/
theorem chain_notes_none (url : String) (e : Extracted) (a b c p q : JVal) :
    dGet (dSet (dSet (dSet (dSet (dSet (parse_html url e) "status_code" a)
      "content_length" b) "load_time_ms" c) "performance" p) "checks" q)
      "notes" = none := rfl

/-- The assembled report carries no `errors` key yet. -/
theorem chain_errors_none (url : String) (e : Extracted) (a b c p q : JVal) :
    dGet (dSet (dSet (dSet (dSet (dSet (parse_html url e) "status_code" a)
      "content_length" b) "load_time_ms" c) "performance" p) "checks" q)
      "errors" = none := rfl

/-- The assembled report carries the thirty parse keys plus the four
orchestrator keys added before the WAF gate. -/
theorem base_chain_mem (url : String) (e : Extracted) (a b c p q : JVal) :
    ∀ k ∈ parseHtmlKeys
        ++ ["status_code", "content_length", "load_time_ms", "performance"],
      dMem (dSet (dSet (dSet (dSet (dSet (parse_html url e) "status_code" a)
        "content_length" b) "load_time_ms" c) "performance" p) "checks" q) k
        = true := by
  intro k hk
  fin_cases hk <;> rfl

/-- Adding the three auxiliary sections completes the ScanResult keys. -/
theorem final_three_mem (M : List (String × JVal)) (v1 v2 v3 : JVal)
    (hM : ∀ k ∈ parseHtmlKeys
        ++ ["status_code", "content_length", "load_time_ms", "performance"],
      dMem M k = true) :
    ∀ k ∈ scanResultKeys,
      dMem (dSet (dSet (dSet M "crawl_checks" v1) "link_checks" v2)
        "pagespeed" v3) k = true := by
  intro k hk
  rw [scanResultKeys, List.mem_append] at hk
  cases hk with
  | inl h =>
    apply dMem_dSet_mono
    apply dMem_dSet_mono
    apply dMem_dSet_mono
    exact hM k (List.mem_append_left _ h)
  | inr h =>
    fin_cases h
    · apply dMem_dSet_mono; apply dMem_dSet_mono; apply dMem_dSet_mono
      exact hM _ (by decide)
    · apply dMem_dSet_mono; apply dMem_dSet_mono; apply dMem_dSet_mono
      exact hM _ (by decide)
    · apply dMem_dSet_mono; apply dMem_dSet_mono; apply dMem_dSet_mono
      exact hM _ (by decide)
    · apply dMem_dSet_mono; apply dMem_dSet_mono; apply dMem_dSet_mono
      exact hM _ (by decide)
    · apply dMem_dSet_mono; apply dMem_dSet_mono; exact dMem_dSet_self _ _ _
    · apply dMem_dSet_mono; exact dMem_dSet_self _ _ _
    · exact dMem_dSet_self _ _ _

/-- **C1 (counterexample)** — The payload `analyze` returns while the host
is in WAF cooldown is exactly the three-key
`{url, status_code, errors}` dict: it lacks `title` (and most other
ScanResult keys), so the claim that the cooldown payload carries every
ScanResult key is false. -/
theorem analyze_cooldown_payload_missing_keys :
    analyze envPlain [("example.com", 2000)] "https://example.com/"
      = .ok (cooldownPayload "https://example.com/" "example.com",
             [("example.com", 2000)])
    ∧ dMem (cooldownPayload "https://example.com/" "example.com") "title"
        = false
    ∧ scanResultKeys.all
        (fun k => dMem (cooldownPayload "https://example.com/" "example.com") k)
        = false :=
  ⟨rfl, rfl, rfl⟩

/-- **C1 (amended)** — Scan result shape: when the host is in cooldown,
`analyze` returns the three-key cooldown payload (not a full ScanResult);
when it is not, a raising fetch propagates as a top-level error, and every
successfully returned report carries all ScanResult keys (the parse keys
with their absent sentinels plus status, content length, load time,
performance and the three auxiliary sections) on every internal path —
no-WAF, AMP re-render, and empty-AMP-body cooldown entry alike. -/
theorem analyze_result_shape (env : ScanEnv) (cool : List (String × ℤ))
    (url host : String) (hh : host_of url = .ok host) :
    (in_cooldown cool host env.now = true →
        analyze env cool url = .ok (cooldownPayload url host, cool))
    ∧ (∀ msg, in_cooldown cool host env.now = false →
        env.fetch url = .error msg → analyze env cool url = .error msg)
    ∧ (∀ f cl rmi rmiOk xrt xtOk,
        in_cooldown cool host env.now = false →
        env.fetch url = .ok f →
        content_length_of f.headers f.body = .ok cl →
        dGet (env.extract url f.body f.headers).checks "robots_meta_index"
          = some (.dict rmi) →
        dGet rmi "ok" = some rmiOk →
        dGet (env.extract url f.body f.headers).checks "x_robots_tag"
          = some (.dict xrt) →
        dGet xrt "ok" = some xtOk →
        ∀ r c', analyze env cool url = .ok (r, c') →
          scanResultKeys.all (fun k => dMem r k) = true) := by
  refine ⟨?_, ?_, ?_⟩
  · intro hc
    simp only [analyze, hh, hc, Bind.bind, Except.bind, pure, Except.pure,
      reduceIte]
  · intro msg hc hfe
    simp only [analyze, hh, hc, hfe, Bind.bind, Except.bind, pure, Except.pure,
      Bool.false_eq_true, if_false]
  · intro f cl rmi rmiOk xrt xtOk hc hf hcl hrmi hrmiOk hxrt hxtOk r c' hA
    simp only [analyze, hh, hc, hf, hcl, Bind.bind, Except.bind, pure,
      Except.pure, rItem, jItem, dGet_chain_checks, dGet_chain_amp, dGetD,
      hrmi, hrmiOk, hxrt, hxtOk, Option.getD_some,
      Bool.false_eq_true, if_false] at hA
    by_cases hw : (looks_like_waf f.body
        && jTruthy (env.extract url f.body f.headers).amp_url) = true
    · simp only [hw, reduceIte] at hA
      cases hf2 : env.fetch (jAsStr (env.extract url f.body f.headers).amp_url) with
      | error m2 =>
        simp only [hf2, Except.bind] at hA
        exact Except.noConfusion hA
      | ok f2 =>
        simp only [hf2, Except.bind] at hA
        by_cases hb : f2.body = ""
        · simp only [hb, ne_eq, not_true_eq_false, Bool.false_eq_true, if_false,
            pure, Except.pure, Except.bind] at hA
          simp only [Except.ok.injEq, Prod.mk.injEq] at hA
          obtain ⟨hr, -⟩ := hA
          subst hr
          rw [List.all_eq_true]
          intro k hk
          simp only [dMem_psiApply]
          exact final_three_mem _ _ _ _
            (fun kk hkk => dMem_setdefault_mono
              (base_chain_mem url (env.extract url f.body f.headers) _ _ _ _ _ kk hkk)
              "errors" _) k hk
        · rw [if_pos hb] at hA
          simp only [pure, Except.pure, Except.bind] at hA
          simp only [Except.ok.injEq, Prod.mk.injEq] at hA
          obtain ⟨hr, -⟩ := hA
          subst hr
          rw [List.all_eq_true]
          intro k hk
          simp only [dMem_psiApply]
          exact final_three_mem _ _ _ _
            (fun kk hkk => dMem_setdefault_mono
              (dMem_copyContent_mono
                (base_chain_mem url (env.extract url f.body f.headers) _ _ _ _ _ kk hkk)
                _) "notes" _) k hk
    · simp only [Bool.not_eq_true] at hw
      simp only [hw, Bool.false_eq_true, if_false, pure, Except.pure,
        Except.bind] at hA
      simp only [Except.ok.injEq, Prod.mk.injEq] at hA
      obtain ⟨hr, -⟩ := hA
      subst hr
      rw [List.all_eq_true]
      intro k hk
      simp only [dMem_psiApply]
      exact final_three_mem _ _ _ _
        (fun kk hkk =>
          base_chain_mem url (env.extract url f.body f.headers) _ _ _ _ _ kk hkk)
        k hk

/-- Witness for C1: in the concrete plain environment the scan succeeds
and the returned report carries every ScanResult key. -/
theorem analyze_result_shape_witness :
    scanResultKeys.all
      (fun k => dMem (okD ([], [])
        (analyze envPlain [] "https://example.com/")).fst k) = true := by
  have h := (analyze_result_shape envPlain [] "https://example.com/"
      "example.com" rfl).2.2
      ⟨12, "<html>ok</html>", [], "https://example.com/", 200⟩ 15
      [("ok", .bool true)] (.bool true) [("ok", .bool true)] (.bool true)
      rfl rfl rfl rfl rfl rfl rfl
  cases hE : analyze envPlain [] "https://example.com/" with
  | error e =>
    have hOk : (analyze envPlain [] "https://example.com/").isOk = true := rfl
    rw [hE] at hOk
    exact Bool.noConfusion hOk
  | ok rc =>
    obtain ⟨r1, c1⟩ := rc
    exact h r1 c1 hE

/-- **C6** — The WAF/AMP fallback frame effect: under a blocked primary
render with a discovered AMP URL, a successful (non-empty) AMP re-render
gives a report whose content-signal keys equal the AMP re-parse and whose
`url`, `status_code`, `load_time_ms`, `content_length` and `performance`
stay those of the primary render, with the explanatory note appended and
no cooldown change; an empty AMP body instead enters cooldown for the
host and appends the error; in both cases the scan returns a result
rather than failing (stated with the PSI call unavailable, so the
performance dict is exactly the primary one). -/
theorem analyze_waf_amp_fallback (env : ScanEnv) (cool : List (String × ℤ))
    (url host a : String) (f f2 : FetchRes) (cl : ℤ)
    (rmi xrt : List (String × JVal)) (rmiOk xtOk : JVal)
    (hh : host_of url = .ok host)
    (hc : in_cooldown cool host env.now = false)
    (hf : env.fetch url = .ok f)
    (hcl : content_length_of f.headers f.body = .ok cl)
    (hrmi : dGet (env.extract url f.body f.headers).checks "robots_meta_index"
      = some (.dict rmi))
    (hrmiOk : dGet rmi "ok" = some rmiOk)
    (hxrt : dGet (env.extract url f.body f.headers).checks "x_robots_tag"
      = some (.dict xrt))
    (hxtOk : dGet xrt "ok" = some xtOk)
    (hwaf : looks_like_waf f.body = true)
    (hamp : (env.extract url f.body f.headers).amp_url = .str a)
    (ha : a ≠ "")
    (hf2 : env.fetch a = .ok f2)
    (hpsi : env.psi (finalUrlOf url f) = none) :
    (analyze env cool url).isOk = true
    ∧ (f2.body ≠ "" →
        ∀ r c', analyze env cool url = .ok (r, c') →
          c' = cool
          ∧ (∀ k ∈ contentKeys,
              dGet r k = dGet (parse_html a (env.extract a f2.body f2.headers)) k)
          ∧ dGet r "url" = some (.str url)
          ∧ dGet r "status_code" = some (.int f.status_code)
          ∧ dGet r "load_time_ms" = some (.int f.load_ms)
          ∧ dGet r "content_length" = some (.int cl)
          ∧ dGet r "performance" = some (.dict (perfDict url f cl))
          ∧ dGet r "notes"
              = some (.list [.str "Canonical blocked by WAF; AMP analyzed instead."]))
    ∧ (f2.body = "" →
        ∀ r c', analyze env cool url = .ok (r, c') →
          c' = enter_cooldown cool host env.now
          ∧ dGet r "errors"
              = some (.list [.str "WAF/CDN blocked both canonical and AMP."])
          ∧ dGet r "status_code" = some (.int f.status_code)) := by
  have hwt : (looks_like_waf f.body
      && jTruthy (env.extract url f.body f.headers).amp_url) = true := by
    rw [hwaf, hamp, Bool.true_and]
    exact decide_eq_true ha
  have hja : jAsStr (env.extract url f.body f.headers).amp_url = a := by
    rw [hamp]
    rfl
  refine ⟨?_, ?_, ?_⟩
  · simp only [analyze, hh, hc, hf, hcl, Bind.bind, Except.bind, pure,
      Except.pure, rItem, jItem, dGet_chain_checks, dGet_chain_amp, dGetD,
      hrmi, hrmiOk, hxrt, hxtOk, Option.getD_some,
      Bool.false_eq_true, if_false]
    simp only [hwt, reduceIte]
    simp only [hja, hf2, Except.bind]
    by_cases hb : f2.body = ""
    · simp only [hb, ne_eq, not_true_eq_false, Bool.false_eq_true, if_false,
        pure, Except.pure, Except.bind, Except.isOk, Except.toBool]
    · rw [if_pos hb]
      simp only [pure, Except.pure, Except.bind, Except.isOk, Except.toBool]
  · intro hb r c' hA
    simp only [analyze, hh, hc, hf, hcl, Bind.bind, Except.bind, pure,
      Except.pure, rItem, jItem, dGet_chain_checks, dGet_chain_amp, dGetD,
      hrmi, hrmiOk, hxrt, hxtOk, Option.getD_some,
      Bool.false_eq_true, if_false] at hA
    simp only [hwt, reduceIte] at hA
    simp only [hja, hf2, Except.bind] at hA
    rw [if_pos hb] at hA
    simp only [pure, Except.pure, Except.bind] at hA
    simp only [hpsi, psiApply] at hA
    simp only [Except.ok.injEq, Prod.mk.injEq] at hA
    obtain ⟨hr, hcc⟩ := hA
    subst hr
    refine ⟨hcc.symm, ?_, ?_, ?_, ?_, ?_, ?_, ?_⟩
    · intro k hk
      fin_cases hk <;>
        (rw [dGet_dSet, if_neg (by decide), dGet_dSet, if_neg (by decide),
           dGet_dSet, if_neg (by decide), dGet_setdefault_ne (by decide)]
         exact dGet_foldl_copy_of_mem _ contentKeys _ _
           (by decide) (by decide) rfl)
    · rw [dGet_dSet, if_neg (by decide), dGet_dSet, if_neg (by decide),
        dGet_dSet, if_neg (by decide), dGet_setdefault_ne (by decide),
        dGet_copyContent_ne (by decide), chain_url]
    · rw [dGet_dSet, if_neg (by decide), dGet_dSet, if_neg (by decide),
        dGet_dSet, if_neg (by decide), dGet_setdefault_ne (by decide),
        dGet_copyContent_ne (by decide), chain_status]
    · rw [dGet_dSet, if_neg (by decide), dGet_dSet, if_neg (by decide),
        dGet_dSet, if_neg (by decide), dGet_setdefault_ne (by decide),
        dGet_copyContent_ne (by decide), chain_lt]
    · rw [dGet_dSet, if_neg (by decide), dGet_dSet, if_neg (by decide),
        dGet_dSet, if_neg (by decide), dGet_setdefault_ne (by decide),
        dGet_copyContent_ne (by decide), chain_cl]
    · rw [dGet_dSet, if_neg (by decide), dGet_dSet, if_neg (by decide),
        dGet_dSet, if_neg (by decide), dGet_setdefault_ne (by decide),
        dGet_copyContent_ne (by decide), chain_perf]
    · rw [dGet_dSet, if_neg (by decide), dGet_dSet, if_neg (by decide),
        dGet_dSet, if_neg (by decide),
        dGet_setdefault_none (by rw [dGet_copyContent_ne (by decide),
          chain_notes_none])]
  · intro hb r c' hA
    simp only [analyze, hh, hc, hf, hcl, Bind.bind, Except.bind, pure,
      Except.pure, rItem, jItem, dGet_chain_checks, dGet_chain_amp, dGetD,
      hrmi, hrmiOk, hxrt, hxtOk, Option.getD_some,
      Bool.false_eq_true, if_false] at hA
    simp only [hwt, reduceIte] at hA
    simp only [hja, hf2, Except.bind] at hA
    simp only [hb, ne_eq, not_true_eq_false, Bool.false_eq_true, if_false,
      pure, Except.pure, Except.bind] at hA
    simp only [hpsi, psiApply] at hA
    simp only [Except.ok.injEq, Prod.mk.injEq] at hA
    obtain ⟨hr, hcc⟩ := hA
    subst hr
    refine ⟨hcc.symm, ?_, ?_⟩
    · rw [dGet_dSet, if_neg (by decide), dGet_dSet, if_neg (by decide),
        dGet_dSet, if_neg (by decide),
        dGet_setdefault_none (chain_errors_none _ _ _ _ _ _ _)]
    · rw [dGet_dSet, if_neg (by decide), dGet_dSet, if_neg (by decide),
        dGet_dSet, if_neg (by decide), dGet_setdefault_ne (by decide),
        chain_status]

/-- Witness for C6: in the concrete WAF environment the scan succeeds,
the AMP title replaces the primary one, the primary status code 403 is
kept, and the cooldown table is unchanged. -/
theorem analyze_waf_amp_fallback_witness :
    (analyze envWaf [] "https://example.com/").isOk = true
    ∧ dGet (okD ([], []) (analyze envWaf [] "https://example.com/")).fst
        "title" = some (.str "Amp Title")
    ∧ dGet (okD ([], []) (analyze envWaf [] "https://example.com/")).fst
        "status_code" = some (.int 403)
    ∧ (okD ([], []) (analyze envWaf [] "https://example.com/")).snd = [] := by
  have h := analyze_waf_amp_fallback envWaf [] "https://example.com/"
      "example.com" "https://example.com/amp"
      ⟨12, "access denied", [], "https://example.com/", 403⟩
      ⟨5, "<html>amp</html>", [], "https://example.com/amp", 200⟩
      13 [("ok", .bool true)] [("ok", .bool true)] (.bool true) (.bool true)
      rfl rfl rfl rfl rfl rfl rfl rfl rfl rfl (by decide) rfl rfl
  have hrest :
      dGet (okD ([], []) (analyze envWaf [] "https://example.com/")).fst
          "title" = some (.str "Amp Title")
      ∧ dGet (okD ([], []) (analyze envWaf [] "https://example.com/")).fst
          "status_code" = some (.int 403)
      ∧ (okD ([], []) (analyze envWaf [] "https://example.com/")).snd = [] := by
    cases hE : analyze envWaf [] "https://example.com/" with
    | error e =>
      have hOk := h.1
      rw [hE] at hOk
      exact Bool.noConfusion hOk
    | ok rc =>
      obtain ⟨r1, c1⟩ := rc
      have h2 := h.2.1 (by decide) r1 c1 hE
      exact ⟨(h2.2.1 "title" (by decide)).trans rfl, h2.2.2.2.1, h2.1⟩
  exact ⟨h.1, hrest.1, hrest.2.1, hrest.2.2⟩

end SEOTool
